import Mathlib

/-!
# Void Reckoning combat engine — shallow embedding

This file embeds the combat core of the `void_reckoning_combat` crate
(`lib.rs`, `mechanics.rs`, `targeting.rs`, `engine.rs`) into Lean 4 and
proves/refutes the frozen claims about it.

Conventions of the embedding:
* Rust `f32` values are modelled as exact rationals (`ℚ`); the claims under
  study are about the algebraic structure of the computations, not about
  binary floating-point rounding.
* The transcendental operations the source uses (`sqrt`, `cos`, `sin`,
  `atan2`) have no exact rational counterpart; they are passed in as an
  explicit `FloatOps` record of functions and every theorem is proved for
  *all* such records, hence in particular for the real operations.
* `rand::thread_rng` / `gen_range(0.9..1.1)` is modelled as an explicit
  stream `ℕ → ℚ` of variation factors consumed in call order, so the
  "same random-damage sequence" hypotheses of the claims are literal.
* Rust `u32`/`u8` identifiers and faction indices are modelled as `ℕ`:
  no arithmetic is ever performed on them, so overflow cannot matter.
* `HashMap` iteration appears only in `SpatialHash::get_nearby`, whose cell
  visiting order is the deterministic `x`-major rectangle loop of the
  source; per-cell `Vec`s hold ids in roster (insertion) order.
-/

namespace VoidReckoning

/-- `WeaponType` from `lib.rs`. -/
inductive WeaponType where
  | Kinetic
  | Energy
  | Missile
  | Beam
  | Fighter
deriving DecidableEq, Repr

/-- `DamageType` from `mechanics.rs`. -/
inductive DamageType where
  | Kinetic
  | Energy
  | Explosive
deriving DecidableEq, Repr

/-- `CoverType` from `lib.rs` / `engine.rs` (`None`/`Light`/`Heavy`/`Fortified`). -/
inductive CoverType where
  | NoCover
  | Light
  | Heavy
  | Fortified
deriving DecidableEq, Repr

/-- `Weapon` from `lib.rs`. -/
structure Weapon where
  name : String
  weapon_type : WeaponType
  range : ℚ
  damage : ℚ
  accuracy : ℚ
  cooldown : ℚ
  current_cooldown : ℚ
deriving DecidableEq, Repr

/-- `CombatUnit` from `lib.rs` (including the `cover` field consumed by
`mechanics.rs` and written by `engine.rs::set_unit_cover`). -/
structure CombatUnit where
  id : ℕ
  name : String
  faction_idx : ℕ
  hp : ℚ
  max_hp : ℚ
  shields : ℚ
  max_shields : ℚ
  armor : ℚ
  integrity : ℚ
  weapons : List Weapon
  speed : ℚ
  evasion : ℚ
  cover : CoverType
  position : ℚ × ℚ
  velocity : ℚ × ℚ
  target_id : Option ℕ
  is_alive : Bool
deriving DecidableEq, Repr

/-- `CombatUnit::new` from `lib.rs`. -/
def CombatUnit.new (id : ℕ) (name : String) (faction_idx : ℕ) (max_hp : ℚ) :
    CombatUnit where
  id := id
  name := name
  faction_idx := faction_idx
  hp := max_hp
  max_hp := max_hp
  shields := 0
  max_shields := 0
  armor := 0
  integrity := 1
  weapons := []
  speed := 0
  evasion := 0
  cover := CoverType.NoCover
  position := (0, 0)
  velocity := (0, 0)
  target_id := none
  is_alive := true

/-- `BattleState` from `lib.rs` (with the `run_id` field that
`engine.rs::set_correlation_context` writes). -/
structure BattleState where
  units : List CombatUnit
  grid_size : ℚ × ℚ
  turn : ℕ
  time_elapsed : ℚ
  run_id : String
deriving DecidableEq, Repr

/-- `BattleState::new`. -/
def BattleState.new (width height : ℚ) : BattleState where
  units := []
  grid_size := (width, height)
  turn := 0
  time_elapsed := 0
  run_id := ""

/-- `BattleState::add_unit`. -/
def BattleState.add_unit (s : BattleState) (u : CombatUnit) : BattleState :=
  { s with units := s.units ++ [u] }

/-- `BattleState::get_unit`: first unit with the given id. -/
def BattleState.get_unit (s : BattleState) (id : ℕ) : Option CombatUnit :=
  s.units.find? (fun u => u.id == id)

/-! ## `mechanics.rs` -/

/-- `WeaponType → DamageType` map from `DamageSource::get_damage_type`. -/
def Weapon.get_damage_type (w : Weapon) : DamageType :=
  match w.weapon_type with
  | WeaponType.Kinetic => DamageType.Kinetic
  | WeaponType.Energy => DamageType.Energy
  | WeaponType.Missile => DamageType.Explosive
  | WeaponType.Beam => DamageType.Energy
  | WeaponType.Fighter => DamageType.Kinetic

/-- `Armor::mitigate_damage for CombatUnit` from `mechanics.rs`.
Note the Energy branch is `(shields / max_shields).max(0.0) * 0.5` in the
source — a clamp from below at 0, with no cap at 1. -/
def CombatUnit.mitigate_damage (u : CombatUnit) (damage : ℚ)
    (damage_type : DamageType) : ℚ :=
  let mitigation_factor : ℚ :=
    match damage_type with
    | DamageType.Kinetic => u.armor / (u.armor + 100)
    | DamageType.Energy =>
        if u.max_shields > 0 then (max (u.shields / u.max_shields) 0) * (1/2)
        else 0
    | DamageType.Explosive => 0
  let cover_mitigation : ℚ :=
    match u.cover with
    | CoverType.NoCover => 0
    | CoverType.Light => 1/4
    | CoverType.Heavy => 1/2
    | CoverType.Fortified => 3/4
  let final_damage := damage * (1 - mitigation_factor) * (1 - cover_mitigation)
  if final_damage < 0 then 0 else final_damage

/-! ## `targeting.rs` -/

/-- Squared Euclidean distance `dx*dx + dy*dy` as computed throughout the
source. -/
def distSq (a b : ℚ × ℚ) : ℚ :=
  (b.1 - a.1) * (b.1 - a.1) + (b.2 - a.2) * (b.2 - a.2)

/-- The candidate-validity test shared by both targeting paths: the source
skips a candidate when `!target.is_alive || target.id == attacker.id ||
target.faction_idx == attacker.faction_idx`. -/
def validTarget (attacker target : CombatUnit) : Bool :=
  target.is_alive && target.id != attacker.id &&
    target.faction_idx != attacker.faction_idx

/-- The accumulator loop of `find_best_target`: the source threads
`best_target : Option<u32>` and `min_dist_sq : f32` (initially `f32::MAX`,
i.e. "no candidate yet"), updating on strict `<`. -/
def fbtLoop (attacker : CombatUnit) :
    List CombatUnit → Option (ℕ × ℚ) → Option (ℕ × ℚ)
  | [], acc => acc
  | t :: ts, acc =>
      if validTarget attacker t then
        let d := distSq attacker.position t.position
        match acc with
        | none => fbtLoop attacker ts (some (t.id, d))
        | some (b, m) =>
            if d < m then fbtLoop attacker ts (some (t.id, d))
            else fbtLoop attacker ts (some (b, m))
      else fbtLoop attacker ts acc

/-- `find_best_target` from `targeting.rs` (the unindexed linear scan). -/
def find_best_target (attacker : CombatUnit) (state : BattleState) :
    Option ℕ :=
  (fbtLoop attacker state.units none).map Prod.fst

/-- Rust `as i32` on an `f32`: truncation toward zero. -/
def truncZ (q : ℚ) : ℤ :=
  if q < 0 then ⌈q⌉ else ⌊q⌋

/-- The cell an inserted unit lands in (`SpatialHash::insert`):
`((x / cell_size) as i32, (y / cell_size) as i32)`. -/
def cellOf (cell_size : ℚ) (pos : ℚ × ℚ) : ℤ × ℤ :=
  (truncZ (pos.1 / cell_size), truncZ (pos.2 / cell_size))

/-- `n` consecutive integers starting at `lo`. -/
def rangeZFuel : ℕ → ℤ → List ℤ
  | 0, _ => []
  | n + 1, lo => lo :: rangeZFuel n (lo + 1)

/-- Inclusive integer range `lo..=hi` as a list (empty when `hi < lo`). -/
def rangeZ (lo hi : ℤ) : List ℤ :=
  rangeZFuel (hi + 1 - lo).toNat lo

/-- `SpatialHash::build` followed by `SpatialHash::get_nearby`: the hash built
over the living units of `state` maps each cell to the ids that fall in it in
roster order, and `get_nearby` concatenates the cells of the query rectangle
in `x`-major, then `y`, order. -/
def get_nearby (state : BattleState) (cell_size : ℚ) (pos : ℚ × ℚ)
    (radius : ℚ) : List ℕ :=
  let min_x := truncZ ((pos.1 - radius) / cell_size)
  let max_x := truncZ ((pos.1 + radius) / cell_size)
  let min_y := truncZ ((pos.2 - radius) / cell_size)
  let max_y := truncZ ((pos.2 + radius) / cell_size)
  (rangeZ min_x max_x).flatMap (fun x =>
    (rangeZ min_y max_y).flatMap (fun y =>
      ((state.units.filter (fun u =>
          u.is_alive && cellOf cell_size u.position == (x, y))).map
        (fun u => u.id))))

/-- The accumulator loop of `find_best_target_spatial`: candidate ids are
resolved through `state.get_unit` and filtered by the same validity
predicate. -/
def fbtsLoop (attacker : CombatUnit) (state : BattleState) :
    List ℕ → Option (ℕ × ℚ) → Option (ℕ × ℚ)
  | [], acc => acc
  | tid :: ts, acc =>
      match state.get_unit tid with
      | none => fbtsLoop attacker state ts acc
      | some t =>
          if validTarget attacker t then
            let d := distSq attacker.position t.position
            match acc with
            | none => fbtsLoop attacker state ts (some (t.id, d))
            | some (b, m) =>
                if d < m then fbtsLoop attacker state ts (some (t.id, d))
                else fbtsLoop attacker state ts (some (b, m))
          else fbtsLoop attacker state ts acc

/-- `find_best_target_spatial` from `targeting.rs`, with the hash built over
the living units of `state` at `cell_size` (`SpatialHash::build`): search
radius is the attacker's longest weapon range floored at 50.0. -/
def find_best_target_spatial (attacker : CombatUnit) (state : BattleState)
    (cell_size : ℚ) : Option ℕ :=
  let max_range := (attacker.weapons.map (fun w => w.range)).foldl max 0
  let nearby := get_nearby state cell_size attacker.position (max max_range 50)
  (fbtsLoop attacker state nearby none).map Prod.fst

/-! ## Shared observability types (`void_reckoning_shared/src/lib.rs`)

`Uuid::new_v4` and the wall-clock `timestamp` of `Event::new` are entropy /
real-time sources outside the model; they are rendered as the empty string
and omitted respectively.  No claim under study inspects them. -/

/-- `CorrelationContext` from the shared crate. -/
structure CorrelationContext where
  trace_id : String
  span_id : String
  parent_id : Option String
deriving DecidableEq, Repr

/-- `CorrelationContext::child`: keeps `trace_id`, links `parent_id` to the
current span; the fresh `span_id` comes from `Uuid::new_v4` (entropy, modelled
as `""`). -/
def CorrelationContext.child (c : CorrelationContext) : CorrelationContext :=
  { trace_id := c.trace_id, span_id := "", parent_id := some c.span_id }

/-- `EventSeverity` from the shared crate. -/
inductive EventSeverity where
  | Debug
  | Info
  | Warning
  | Error
  | Critical
deriving DecidableEq, Repr

/-- `Event` from the shared crate (without the wall-clock `timestamp`). -/
structure Event where
  severity : EventSeverity
  category : String
  message : String
  context : CorrelationContext
  data : Option String
deriving DecidableEq, Repr

/-! ## `engine.rs` -/

/-- The transcendental `f32` operations the engine calls.  They have no exact
rational counterpart, so the tick function is parametrised by an arbitrary
interpretation and every theorem holds for all of them — in particular for the
true `sqrt`/`cos`/`sin`/`atan2`. -/
structure FloatOps where
  sqrt : ℚ → ℚ
  cos : ℚ → ℚ
  sin : ℚ → ℚ
  atan2 : ℚ → ℚ → ℚ

/-- `iter().enumerate()` starting at `n`. -/
def enumFrom (n : ℕ) : List α → List (ℕ × α)
  | [] => []
  | x :: xs => (n, x) :: enumFrom (n + 1) xs

/-- `iter().enumerate()`. -/
def enumL (l : List α) : List (ℕ × α) :=
  enumFrom 0 l

/-- Replace the element at index `i` (no-op when out of range, matching the
checked `get_mut`/index updates of the source). -/
def updateAt (l : List α) (i : ℕ) (f : α → α) : List α :=
  match l, i with
  | [], _ => []
  | x :: xs, 0 => f x :: xs
  | x :: xs, n + 1 => x :: updateAt xs n f

/-- Replace the first element satisfying `p` (`iter_mut().find`). -/
def updateFirst (p : α → Bool) (f : α → α) : List α → List α
  | [] => []
  | x :: xs => if p x then f x :: xs else x :: updateFirst p f xs

/-- Lookup in the `HashMap` collected from an iterator of key/value pairs:
on duplicate keys the last insertion wins. -/
def hashGet (l : List (ℕ × α)) (k : ℕ) : Option α :=
  (l.reverse.find? (fun p => p.1 == k)).map Prod.snd

/-- The `(index, new position)` pairs collected by PASS 0, computed against
the `unit_positions` snapshot. -/
def moveList (F : FloatOps) (units : List CombatUnit) :
    List (ℕ × (ℚ × ℚ)) :=
  let unit_positions := units.map (fun u => (u.id, u.position))
  (enumL units).filterMap (fun p =>
    let idx := p.1
    let unit := p.2
    if !unit.is_alive then none
    else if unit.speed ≤ 0 then none
    else
      match unit.target_id with
      | none => none
      | some tid =>
          match hashGet unit_positions tid with
          | none => none
          | some target_pos =>
              let dx := target_pos.1 - unit.position.1
              let dy := target_pos.2 - unit.position.2
              let dist := F.sqrt (dx * dx + dy * dy)
              let desired_range : ℚ := 20
              if dist > desired_range then
                let move_dist := min unit.speed (dist - desired_range)
                if move_dist > 0 then
                  let angle := F.atan2 dy dx
                  some (idx, (unit.position.1 + move_dist * F.cos angle,
                              unit.position.2 + move_dist * F.sin angle))
                else none
              else none)

/-- PASS 0 of `BattleEngine::step`: movement.  Positions are snapshotted
before any unit moves; moves are collected and applied afterwards. -/
def movementPass (F : FloatOps) (units : List CombatUnit) : List CombatUnit :=
  (moveList F units).foldl
    (fun us m => updateAt us m.1 (fun u => { u with position := m.2 }))
    units

/-- The retargeting test of PASS 1: a unit needs a (new) target when it has
none, or its target id resolves to no unit, or to a dead one. -/
def needsTarget (units : List CombatUnit) (u : CombatUnit) : Bool :=
  match u.target_id with
  | none => true
  | some tid =>
      ((units.find? (fun v => v.id == tid)).map (fun v => !v.is_alive)).getD true

/-- The `(index, new target)` pairs collected by PASS 1. -/
def newTargets (state : BattleState) : List (ℕ × ℕ) :=
  (enumL state.units).filterMap (fun p =>
    let idx := p.1
    let unit := p.2
    if !unit.is_alive then none
    else if needsTarget state.units unit then
      (find_best_target unit state).map (fun t => (idx, t))
    else none)

/-- PASS 1 of `BattleEngine::step`: targeting.  New targets are collected
over the scan and applied only afterwards. -/
def targetingPass (state : BattleState) : List CombatUnit :=
  (newTargets state).foldl
    (fun us m => updateAt us m.1 (fun u => { u with target_id := some m.2 }))
    state.units

/-- One damage/fire record of PASS 2.  The source pushes the projection
`(target_id, amount, dtype)` onto `damage_events` and `(attacker_idx,
weapon_idx)` onto `fired_weapons` in the same iteration, so the single list of
records carries both. -/
structure AttackRec where
  attacker_idx : ℕ
  weapon_idx : ℕ
  target_id : ℕ
  amount : ℚ
  dtype : DamageType
deriving DecidableEq, Repr

/-- The weapons of an attacker that fire at distance `dist`: in weapon order,
those whose range covers `dist` and whose cooldown has reached `≤ 0`. -/
def firingWeapons (dist : ℚ) (ws : List Weapon) : List (ℕ × Weapon) :=
  (enumL ws).filter (fun q => !(decide (dist > q.2.range)) &&
    decide (q.2.current_cooldown ≤ 0))

/-- One unit's contribution in PASS 2. -/
def attackStep (F : FloatOps) (rngF : ℕ → ℚ) (units : List CombatUnit)
    (acc : List AttackRec × ℕ) (p : ℕ × CombatUnit) :
    List AttackRec × ℕ :=
  let i := p.1
  let attacker := p.2
  if !attacker.is_alive then acc
  else
    match attacker.target_id with
    | none => acc
    | some tid =>
        match units.find? (fun u => u.id == tid) with
        | none => acc
        | some target =>
            let dx := target.position.1 - attacker.position.1
            let dy := target.position.2 - attacker.position.2
            let dist := F.sqrt (dx * dx + dy * dy)
            let fires := firingWeapons dist attacker.weapons
            let newRecs := (enumL fires).map (fun q =>
              { attacker_idx := i, weapon_idx := q.2.1, target_id := tid,
                amount := q.2.2.damage * rngF (acc.2 + q.1),
                dtype := q.2.2.get_damage_type : AttackRec })
            (acc.1 ++ newRecs, acc.2 + fires.length)

/-- PASS 2 of `BattleEngine::step`: attack resolution.  `rngF k` is the `k`-th
value drawn from `gen_range(0.9..1.1)`; draws happen once per firing weapon in
scan order. -/
def attackPass (F : FloatOps) (rngF : ℕ → ℚ) (units : List CombatUnit) :
    List AttackRec :=
  ((enumL units).foldl (attackStep F rngF units) ([], 0)).1

/-- The per-unit update of one cooldown reset. -/
def resetFn (m : ℕ × ℕ) (u : CombatUnit) : CombatUnit :=
  { u with weapons := (updateAt u.weapons m.2
      (fun w => { w with current_cooldown := w.cooldown })) }

/-- Cooldown resets for the weapons that fired (between PASS 2 and PASS 3),
applied in firing order. -/
def applyResets (units : List CombatUnit) : List (ℕ × ℕ) → List CombatUnit
  | [] => units
  | m :: ms => applyResets (updateAt units m.1 (resetFn m)) ms

/-- The shield/hp resource subtraction of PASS 3 (engine.rs lines 212-220),
applied to an already-mitigated loss. -/
def applyLoss (t : CombatUnit) (loss : ℚ) (dtype : DamageType) : CombatUnit :=
  if t.shields > 0 ∧ dtype = DamageType.Energy then
    if t.shields - loss < 0 then
      { t with hp := t.hp + (t.shields - loss), shields := 0 }
    else { t with shields := t.shields - loss }
  else { t with hp := t.hp - loss }

/-- The death clamp of PASS 3; the Boolean reports whether the unit was
destroyed by this event (drives the destruction-event emission). -/
def deathClamp (t : CombatUnit) : CombatUnit × Bool :=
  if t.hp ≤ 0 then ({ t with is_alive := false, hp := 0 }, true)
  else (t, false)

/-- Processing of one damage event against its resolved defender: dead
defenders are skipped. -/
def damageUnit (t : CombatUnit) (amount : ℚ) (dtype : DamageType) :
    CombatUnit × Bool :=
  if t.is_alive then deathClamp (applyLoss t (t.mitigate_damage amount dtype) dtype)
  else (t, false)

/-- Replace the first element satisfying `p`, reporting the Boolean the
update returned (`false` when nothing matched). -/
def updateFirstD (p : α → Bool) (f : α → α × Bool) : List α → List α × Bool
  | [] => ([], false)
  | x :: xs =>
      if p x then ((f x).1 :: xs, (f x).2)
      else
        let r := updateFirstD p f xs
        (x :: r.1, r.2)

/-- One damage event of PASS 3: resolve the defender by id (first match) and
apply `damageUnit`. -/
def damageStep (units : List CombatUnit) (ev : ℕ × ℚ × DamageType) :
    List CombatUnit × Bool :=
  updateFirstD (fun u => u.id == ev.1) (fun t => damageUnit t ev.2.1 ev.2.2) units

/-- PASS 3 of `BattleEngine::step`: apply all queued damage events in order,
collecting the ids of units destroyed (in emission order). -/
def damagePass (units : List CombatUnit) :
    List (ℕ × ℚ × DamageType) → List CombatUnit × List ℕ
  | [] => (units, [])
  | ev :: evs =>
      let r := damageStep units ev
      let rest := damagePass r.1 evs
      (rest.1, (if r.2 then [ev.1] else []) ++ rest.2)

/-- PASS 4 of `BattleEngine::step`: every weapon with positive remaining
cooldown is decremented by one. -/
def cooldownPass (units : List CombatUnit) : List CombatUnit :=
  units.map (fun u =>
    { u with weapons := u.weapons.map (fun w =>
        if w.current_cooldown > 0 then
          { w with current_cooldown := w.current_cooldown - 1 }
        else w) })

/-- The continuation check of `step`: more than one distinct faction index
among currently-alive units. -/
def continueFlag (units : List CombatUnit) : Bool :=
  decide (1 < ((units.filter (fun u => u.is_alive)).map
    (fun u => u.faction_idx)).toFinset.card)

attribute [irreducible] continueFlag

/-- Result of the pure (state-level) part of one tick. -/
structure CoreResult where
  state : BattleState
  cont : Bool
  recs : List AttackRec
  destroyed : List ℕ
deriving Repr

/-- The full five-pass state transition of `BattleEngine::step`, on the
`BattleState` alone. -/
def BattleState.stepCore (F : FloatOps) (rngF : ℕ → ℚ) (s : BattleState) :
    CoreResult :=
  let s0 := { s with turn := s.turn + 1, time_elapsed := s.time_elapsed + 1 }
  let units1 := movementPass F s0.units
  let units2 := targetingPass { s0 with units := units1 }
  let recs := attackPass F rngF units2
  let fired := recs.map (fun r => (r.attacker_idx, r.weapon_idx))
  let events := recs.map (fun r => (r.target_id, r.amount, r.dtype))
  let units3 := applyResets units2 fired
  let dres := damagePass units3 events
  let units4 := cooldownPass dres.1
  let st := { s0 with units := units4 }
  { state := st, cont := continueFlag st.units,
    recs := recs, destroyed := dres.2 }

/-- `BattleEngine` from `engine.rs`.  The shared, mutex-guarded `EventLog` is
modelled as the list of events appended so far. -/
structure BattleEngine where
  state : BattleState
  event_log : Option (List Event)
  current_context : CorrelationContext
deriving Repr

/-- `BattleEngine::new` (the fresh context's uuids are entropy, modelled as
empty strings). -/
def BattleEngine.new (width height : ℚ) : BattleEngine where
  state := BattleState.new width height
  event_log := none
  current_context := { trace_id := "", span_id := "", parent_id := none }

/-- `BattleEngine::set_event_log`. -/
def BattleEngine.set_event_log (e : BattleEngine) (log : List Event) :
    BattleEngine :=
  { e with event_log := some log }

/-- `BattleEngine::set_correlation_context` (also mirrors the trace id into
`state.run_id`). -/
def BattleEngine.set_correlation_context (e : BattleEngine)
    (c : CorrelationContext) : BattleEngine :=
  { e with current_context := c,
           state := { e.state with run_id := c.trace_id } }

/-- `BattleEngine::add_unit`. -/
def BattleEngine.add_unit (e : BattleEngine) (u : CombatUnit) : BattleEngine :=
  { e with state := e.state.add_unit u }

/-- `BattleEngine::set_unit_cover`. -/
def BattleEngine.set_unit_cover (e : BattleEngine) (unit_id : ℕ)
    (cover_val : ℕ) : BattleEngine :=
  { e with state :=
      { e.state with units := (updateFirst (fun u => u.id == unit_id)
          (fun u => { u with cover :=
            match cover_val with
            | 1 => CoverType.Light
            | 2 => CoverType.Heavy
            | 3 => CoverType.Fortified
            | _ => CoverType.NoCover }) e.state.units) } }

/-- The destruction event emitted for a unit destroyed in PASS 3
(`Event::new(Info, "Combat", format!(...), ctx.child(), None)`). -/
def destructionEvent (ctx : CorrelationContext) (tid : ℕ) : Event where
  severity := EventSeverity.Info
  category := "Combat"
  message := "Unit " ++ toString tid ++ " destroyed by Unit Unknown"
  context := ctx.child
  data := none

/-- `BattleEngine::step`, also returning the attack records of PASS 2 (whose
projections are the source's `damage_events` and `fired_weapons` lists). -/
def BattleEngine.stepFull (F : FloatOps) (rngF : ℕ → ℚ) (e : BattleEngine) :
    BattleEngine × Bool × List AttackRec :=
  let r := e.state.stepCore F rngF
  let log' := match e.event_log with
    | none => none
    | some log => some (log ++ r.destroyed.map (destructionEvent e.current_context))
  ({ state := r.state, event_log := log',
     current_context := e.current_context }, r.cont, r.recs)

/-- `BattleEngine::step` as the driver sees it. -/
def BattleEngine.step (F : FloatOps) (rngF : ℕ → ℚ) (e : BattleEngine) :
    BattleEngine × Bool :=
  ((e.stepFull F rngF).1, (e.stepFull F rngF).2.1)

/-! ## Spec-side auxiliary definitions and concrete fixtures -/

/-- The cover factors as the spec tabulates them
(None/Light/Heavy/Fortified ↦ 0 / 0.25 / 0.50 / 0.75). -/
def coverFactor : CoverType → ℚ
  | CoverType.NoCover => 0
  | CoverType.Light => 1/4
  | CoverType.Heavy => 1/2
  | CoverType.Fortified => 3/4

/-- A concrete interpretation of the transcendental operations, used for
evaluating the tick on concrete inputs (all fixtures fight at distance 0,
where `sqrt 0 = 0` agrees with the true square root). -/
def F0 : FloatOps where
  sqrt := fun _ => 0
  cos := fun _ => 0
  sin := fun _ => 0
  atan2 := fun _ _ => 0

/-- A concrete random-variation stream: every `gen_range(0.9..1.1)` draw
returns 1 (no variation). -/
def rng1 : ℕ → ℚ := fun _ => 1

/-- A kinetic test weapon. -/
def mkWeapon (range damage cooldown current : ℚ) : Weapon where
  name := "w"
  weapon_type := WeaponType.Kinetic
  range := range
  damage := damage
  accuracy := 1
  cooldown := cooldown
  current_cooldown := current

/-- A test unit at a given position. -/
def mkUnit (id faction : ℕ) (hp : ℚ) (pos : ℚ × ℚ) : CombatUnit :=
  { CombatUnit.new id "u" faction hp with position := pos }

/-- C1 counterexample: attacker with no weapons at the origin. -/
def cxA : CombatUnit := mkUnit 0 0 100 (0, 0)

/-- C1 counterexample: lone enemy at distance 100, outside the 50-unit
minimum search radius of the spatial path. -/
def cxB : CombatUnit := mkUnit 1 1 100 (100, 0)

/-- C1 counterexample state. -/
def cxState : BattleState :=
  ((BattleState.new 500 500).add_unit cxA).add_unit cxB

/-- C1 witness: attacker with no weapons at the origin. -/
def w1A : CombatUnit := mkUnit 0 0 100 (0, 0)

/-- C1 witness: enemy at distance 10, inside the 50-unit search radius. -/
def w1B : CombatUnit := mkUnit 1 1 100 (10, 0)

/-- C1 witness state. -/
def w1State : BattleState :=
  { BattleState.new 500 500 with units := [w1A, w1B] }

/-- C2 counterexample: current shields exceed shield capacity. -/
def overShieldUnit : CombatUnit :=
  { CombatUnit.new 0 "ovr" 0 100 with shields := 200, max_shields := 100 }

/-- C2 literal case: armor 100. -/
def armor100Unit : CombatUnit :=
  { CombatUnit.new 0 "a" 0 100 with armor := 100 }

/-- C2 literal case: shields 50 of 100. -/
def halfShieldUnit : CombatUnit :=
  { CombatUnit.new 0 "s" 0 100 with shields := 50, max_shields := 100 }

/-- C3 literal case: shields 10 of 100, hp 100. -/
def shieldTenUnit : CombatUnit :=
  { mkUnit 0 0 100 (0, 0) with shields := 10, max_shields := 100 }

/-- C4/C6 fixture: attacker with a ready weapon (full cooldown 3). -/
def c4X : CombatUnit :=
  { mkUnit 0 0 100 (0, 0) with weapons := [mkWeapon 100 10 3 0] }

/-- C4/C6 fixture: enemy with no weapons, same position. -/
def c4Y : CombatUnit := mkUnit 1 1 100 (0, 0)

/-- C4/C6 fixture engine. -/
def c4Engine : BattleEngine :=
  ((BattleEngine.new 500 500).add_unit c4X).add_unit c4Y

/-- C5 fixture: attacker A, faction 0, at the origin. -/
def tA : CombatUnit := mkUnit 0 0 100 (0, 0)

/-- C5 fixture: enemy B at distance 10. -/
def tB : CombatUnit := mkUnit 1 1 100 (10, 0)

/-- C5 fixture: enemy C at distance 20. -/
def tC : CombatUnit := mkUnit 2 1 100 (20, 0)

/-- C5 fixture: friendly D at distance 1. -/
def tD : CombatUnit := mkUnit 3 0 100 (1, 0)

/-- C5 fixture: enemy E at distance 50. -/
def tE : CombatUnit := mkUnit 4 1 100 (50, 0)

/-- C5 fixture state with A, B, C. -/
def stABC : BattleState :=
  { BattleState.new 500 500 with units := [tA, tB, tC] }

/-- C5 fixture state with A, the nearby friendly D and the far enemy E. -/
def stADE : BattleState :=
  { BattleState.new 500 500 with units := [tA, tD, tE] }

/-- C7 fixture: attacker whose single shot kills the last enemy. -/
def c7X : CombatUnit :=
  { mkUnit 0 0 100 (0, 0) with weapons := [mkWeapon 100 200 1 0] }

/-- C7 fixture: last enemy with 10 hp. -/
def c7Y : CombatUnit := mkUnit 1 1 10 (0, 0)

/-- C7 fixture engine: two factions, the enemy dies on the first tick. -/
def c7Engine : BattleEngine :=
  ((BattleEngine.new 500 500).add_unit c7X).add_unit c7Y

/-- C8 counterexample: a unit added with its `target_id` preset to a
same-faction comrade. -/
def c8X : CombatUnit :=
  { mkUnit 0 0 100 (0, 0) with
      weapons := [mkWeapon 100 10 3 0]
      target_id := some 1 }

/-- C8 counterexample: the same-faction comrade. -/
def c8Y : CombatUnit := mkUnit 1 0 100 (0, 0)

/-- C8 counterexample engine: both units belong to faction 0. -/
def c8Engine : BattleEngine :=
  ((BattleEngine.new 500 500).add_unit c8X).add_unit c8Y

/-- C9 fixture: a dead unit. -/
def c9Dead : CombatUnit :=
  { mkUnit 0 0 100 (0, 0) with
      is_alive := false
      hp := 0
      weapons := [mkWeapon 100 10 3 2] }

/-- C9 fixture engine: a dead unit plus two live fighters. -/
def c9Engine : BattleEngine :=
  (((BattleEngine.new 500 500).add_unit c9Dead).add_unit
    { c4X with id := 2 }).add_unit { c4Y with id := 3 }

/-- Engine histories driven through the public interface, with a
per-added-unit precondition `P` (evaluated against the engine at the moment
of the add). -/
inductive Driven (P : BattleEngine → CombatUnit → Prop) : BattleEngine → Prop
  | new (w h : ℚ) : Driven P (BattleEngine.new w h)
  | add {e : BattleEngine} {u : CombatUnit} : Driven P e → P e u →
      Driven P (e.add_unit u)
  | cover {e : BattleEngine} (id cv : ℕ) : Driven P e →
      Driven P (e.set_unit_cover id cv)
  | log {e : BattleEngine} (l : List Event) : Driven P e →
      Driven P (e.set_event_log l)
  | ctx {e : BattleEngine} (c : CorrelationContext) : Driven P e →
      Driven P (e.set_correlation_context c)
  | step {e : BattleEngine} (F : FloatOps) (rngF : ℕ → ℚ) : Driven P e →
      Driven P (e.step F rngF).1

/-- Per-unit health/liveness invariant. -/
def InvU (u : CombatUnit) : Prop :=
  (u.is_alive = true ↔ 0 < u.hp) ∧ u.hp ≤ u.max_hp ∧
    (u.is_alive = false → u.hp = 0) ∧ 0 < u.max_hp

/-- The add-unit precondition of C6: units enter with `0 < hp ≤ max_hp`,
alive, and a fresh id. -/
def P6 (e : BattleEngine) (u : CombatUnit) : Prop :=
  0 < u.hp ∧ u.hp ≤ u.max_hp ∧ u.is_alive = true ∧
    ∀ v ∈ e.state.units, v.id ≠ u.id

/-- The add-unit precondition of C8 (amended): fresh id, and an initial
target that is absent or refers to an already-present unit of a different
faction. -/
def P8 (e : BattleEngine) (u : CombatUnit) : Prop :=
  (∀ v ∈ e.state.units, v.id ≠ u.id) ∧
    (u.target_id = none ∨ ∃ tid, u.target_id = some tid ∧
      ∃ v ∈ e.state.units, v.id = tid ∧ v.faction_idx ≠ u.faction_idx)

/-- Roster-level health invariant. -/
def InvRoster (units : List CombatUnit) : Prop :=
  ∀ j u, units.get? j = some u → InvU u

/-- Pairwise-distinct ids, index formulation. -/
def DistinctIds (units : List CombatUnit) : Prop :=
  ∀ i j u v, i ≠ j → units.get? i = some u → units.get? j = some v →
    u.id ≠ v.id

/-- Target validity: every set target id refers to another unit of a
different faction present in the roster. -/
def TargetsValid (units : List CombatUnit) : Prop :=
  ∀ i u tid, units.get? i = some u → u.target_id = some tid →
    tid ≠ u.id ∧ ∃ j v, units.get? j = some v ∧ v.id = tid ∧
      v.faction_idx ≠ u.faction_idx

/-- Forget the position (to state a pass touches nothing else). -/
def posErase (u : CombatUnit) : CombatUnit := { u with position := (0, 0) }

/-- Forget the target id. -/
def targetErase (u : CombatUnit) : CombatUnit := { u with target_id := none }

/-- Forget hp, shields and the alive flag (the damage-pass footprint). -/
def vitalsErase (u : CombatUnit) : CombatUnit :=
  { u with hp := 0, shields := 0, is_alive := true }

/-- Forget a weapon's remaining cooldown. -/
def wErase (w : Weapon) : Weapon := { w with current_cooldown := 0 }

/-- Fallback unit for `Option.getD`. -/
def defaultUnit : CombatUnit := CombatUnit.new 0 "" 0 1

/-- C10 witness: a bare engine. -/
def e10a : BattleEngine := c4Engine

/-- C10 witness: the same battle with an event log attached and a different
correlation context. -/
def e10b : BattleEngine :=
  (c4Engine.set_event_log []).set_correlation_context
    { trace_id := "t", span_id := "s", parent_id := none }

/-- C6 witness: the damaged enemy of `c4Engine` after one tick. -/
def c6wUnit : CombatUnit where
  id := 1
  name := "u"
  faction_idx := 1
  hp := 90
  max_hp := 100
  shields := 0
  max_shields := 0
  armor := 0
  integrity := 1
  weapons := []
  speed := 0
  evasion := 0
  cover := CoverType.NoCover
  position := (0, 0)
  velocity := (0, 0)
  target_id := some 0
  is_alive := true

/-- The strict-minimum accumulator both targeting loops instantiate: keep the
current best `(id, dist_sq)` pair, replacing it only on strictly smaller
distance. -/
def runMin (p : ℕ × ℚ) : List (ℕ × ℚ) → ℕ × ℚ
  | [] => p
  | q :: qs => if q.2 < p.2 then runMin q qs else runMin p qs

/-- `runMin` with an optional accumulator (the `f32::MAX` sentinel of the
source corresponds to `none`). -/
def scanMin : List (ℕ × ℚ) → Option (ℕ × ℚ) → Option (ℕ × ℚ)
  | [], acc => acc
  | q :: qs, acc =>
      match acc with
      | none => scanMin qs (some q)
      | some p =>
          if q.2 < p.2 then scanMin qs (some q) else scanMin qs (some p)

/-- The valid candidates a linear targeting scan ranges over, as
`(id, dist_sq)` pairs in roster order. -/
def candList (attacker : CombatUnit) (l : List CombatUnit) : List (ℕ × ℚ) :=
  (l.filter (fun t => validTarget attacker t)).map
    (fun t => (t.id, distSq attacker.position t.position))

/-- The valid candidates of the spatial scan: nearby ids resolved through
`get_unit`, then filtered and measured identically. -/
def spatialCands (attacker : CombatUnit) (state : BattleState)
    (ids : List ℕ) : List (ℕ × ℚ) :=
  candList attacker (ids.filterMap state.get_unit)

/-! ## Theorems -/

/-- The source's final flooring `if x < 0 { 0 } else { x }` equals `max 0`. -/
theorem ite_neg_eq_max (x : ℚ) : (if x < 0 then 0 else x) = max 0 x := by
  rcases lt_or_le x 0 with h | h
  · simp [h, max_eq_left h.le]
  · simp [not_lt.mpr h, max_eq_right h]

/-- The cover match of `mitigate_damage` is `coverFactor`. -/
theorem cover_match_eq (c : CoverType) :
    (match c with
      | CoverType.NoCover => (0 : ℚ)
      | CoverType.Light => 1/4
      | CoverType.Heavy => 1/2
      | CoverType.Fortified => 3/4) = coverFactor c := by
  cases c <;> rfl

/-- **C2 (amended)**: `mitigate_damage` returns
`raw * (1 - mitigation_factor) * (1 - cover_factor)` floored at 0, where the
mitigation factor is `armor/(armor+100)` for Kinetic (strictly less than 1
for every non-negative armor), `max(shields/max_shields, 0) * 0.5` for Energy
when `max_shields > 0` (a clamp from below at 0 — not `min(·,1) * 0.5`) and 0
otherwise, and 0 for Explosive; the cover factor is 0/0.25/0.50/0.75 for
None/Light/Heavy/Fortified; in particular armor=100 Kinetic raw 100 no cover
yields 50.0 and shields=50 of 100 Energy raw 100 yields 75.0. -/
theorem mitigate_damage_spec (u : CombatUnit) (damage : ℚ) :
    (0 ≤ u.armor → u.armor / (u.armor + 100) < 1) ∧
    u.mitigate_damage damage DamageType.Kinetic =
      max 0 (damage * (1 - u.armor / (u.armor + 100)) *
        (1 - coverFactor u.cover)) ∧
    (u.max_shields > 0 →
      u.mitigate_damage damage DamageType.Energy =
        max 0 (damage * (1 - max (u.shields / u.max_shields) 0 * (1/2)) *
          (1 - coverFactor u.cover))) ∧
    (¬ u.max_shields > 0 →
      u.mitigate_damage damage DamageType.Energy =
        max 0 (damage * (1 - coverFactor u.cover))) ∧
    u.mitigate_damage damage DamageType.Explosive =
      max 0 (damage * (1 - coverFactor u.cover)) ∧
    coverFactor CoverType.NoCover = 0 ∧ coverFactor CoverType.Light = 1/4 ∧
    coverFactor CoverType.Heavy = 1/2 ∧
    coverFactor CoverType.Fortified = 3/4 ∧
    armor100Unit.mitigate_damage 100 DamageType.Kinetic = 50 ∧
    halfShieldUnit.mitigate_damage 100 DamageType.Energy = 75 := by
  refine ⟨?_, ?_, ?_, ?_, ?_, rfl, rfl, rfl, rfl,
    by norm_num [CombatUnit.mitigate_damage, armor100Unit, CombatUnit.new],
    by norm_num [CombatUnit.mitigate_damage, halfShieldUnit, CombatUnit.new,
      max_def]⟩
  · intro h
    have hpos : (0 : ℚ) < u.armor + 100 := by linarith
    rw [div_lt_one hpos]
    linarith
  · simp only [CombatUnit.mitigate_damage]
    rw [cover_match_eq, ite_neg_eq_max]
  · intro h
    simp only [CombatUnit.mitigate_damage, if_pos h]
    rw [cover_match_eq, ite_neg_eq_max]
  · intro h
    simp only [CombatUnit.mitigate_damage, if_neg h]
    rw [cover_match_eq, ite_neg_eq_max]
    ring_nf
  · simp only [CombatUnit.mitigate_damage]
    rw [cover_match_eq, ite_neg_eq_max]
    ring_nf

/-- Witness for the hypotheses of `mitigate_damage_spec`. -/
theorem mitigate_damage_spec_witness :
    0 ≤ armor100Unit.armor ∧
    armor100Unit.armor / (armor100Unit.armor + 100) < 1 :=
  ⟨by norm_num [armor100Unit, CombatUnit.new],
    (mitigate_damage_spec armor100Unit 100).1
      (by norm_num [armor100Unit, CombatUnit.new])⟩

/-- **C2 counterexample**: with shields=200 of max_shields=100 (a state the
engine accepts via `add_unit`), the code's Energy factor is
`max(200/100, 0) * 0.5 = 1`, so `mitigate_damage` returns 0, whereas the
claim's `min(200/100, 1) * 0.5 = 0.5` would give 50. -/
theorem mitigate_damage_cx :
    overShieldUnit.mitigate_damage 100 DamageType.Energy = 0 ∧
    (100 : ℚ) *
        (1 - min (overShieldUnit.shields / overShieldUnit.max_shields) 1 *
          (1/2)) * (1 - coverFactor overShieldUnit.cover) = 50 ∧
    (0 : ℚ) ≠ 50 := by
  refine ⟨by norm_num [CombatUnit.mitigate_damage, overShieldUnit,
      CombatUnit.new, max_def],
    by norm_num [overShieldUnit, CombatUnit.new, coverFactor, min_def],
    by norm_num⟩

/-- **C3**: the resource application of the damage pass subtracts an Energy
loss from positive shields first, bleeds any negative remainder into hp and
clamps shields at 0; every other case subtracts the loss directly from hp;
in particular shields=10 of 100 receiving a mitigated Energy loss of 30 ends
with shields 0 and hp reduced by exactly 20. -/
theorem applyLoss_spec (t : CombatUnit) (loss : ℚ) :
    (t.shields > 0 →
      (applyLoss t loss DamageType.Energy).shields = max 0 (t.shields - loss) ∧
      (applyLoss t loss DamageType.Energy).hp =
        t.hp + min 0 (t.shields - loss)) ∧
    (∀ dtype, ¬ (t.shields > 0 ∧ dtype = DamageType.Energy) →
      (applyLoss t loss dtype).hp = t.hp - loss ∧
      (applyLoss t loss dtype).shields = t.shields) ∧
    (applyLoss shieldTenUnit 30 DamageType.Energy).shields = 0 ∧
    (applyLoss shieldTenUnit 30 DamageType.Energy).hp =
      shieldTenUnit.hp - 20 := by
  refine ⟨?_, ?_,
    by norm_num [applyLoss, shieldTenUnit, mkUnit, CombatUnit.new],
    by norm_num [applyLoss, shieldTenUnit, mkUnit, CombatUnit.new]⟩
  · intro hs
    simp only [applyLoss]
    split_ifs with h1 h2
    · exact ⟨by simp [max_eq_left h2.le], by simp [min_eq_right h2.le]⟩
    · exact ⟨by simp [max_eq_right (not_lt.mp h2)],
        by simp [min_eq_left (not_lt.mp h2)]⟩
    · exact absurd ⟨hs, by trivial⟩ h1
  · intro dtype hcond
    simp only [applyLoss, if_neg hcond]
    trivial

/-- Witness for the hypotheses of `applyLoss_spec`. -/
theorem applyLoss_spec_witness :
    shieldTenUnit.shields > 0 ∧
    (applyLoss shieldTenUnit 30 DamageType.Energy).shields =
      max 0 (shieldTenUnit.shields - 30) :=
  ⟨by norm_num [shieldTenUnit, mkUnit, CombatUnit.new],
    ((applyLoss_spec shieldTenUnit 30).1
      (by norm_num [shieldTenUnit, mkUnit, CombatUnit.new])).1⟩

/-- The linear scan is `scanMin` over its candidate list. -/
theorem fbtLoop_eq_scanMin (a : CombatUnit) :
    ∀ (l : List CombatUnit) (acc : Option (ℕ × ℚ)),
      fbtLoop a l acc = scanMin (candList a l) acc := by
  intro l
  induction l with
  | nil => intro acc; rfl
  | cons t ts ih =>
      intro acc
      cases hv : validTarget a t with
      | false => simp [fbtLoop, hv, candList, ih]
      | true =>
          have hc : candList a (t :: ts) =
              (t.id, distSq a.position t.position) :: candList a ts := by
            simp [candList, hv]
          cases acc with
          | none => simp [fbtLoop, hv, hc, scanMin, ih]
          | some p =>
              obtain ⟨b, m⟩ := p
              by_cases hd : distSq a.position t.position < m
              · simp [fbtLoop, hv, hc, scanMin, hd, ih]
              · simp [fbtLoop, hv, hc, scanMin, hd, ih]

/-- The spatial scan is `scanMin` over its candidate list. -/
theorem fbtsLoop_eq_scanMin (a : CombatUnit) (s : BattleState) :
    ∀ (ids : List ℕ) (acc : Option (ℕ × ℚ)),
      fbtsLoop a s ids acc = scanMin (spatialCands a s ids) acc := by
  intro ids
  induction ids with
  | nil => intro acc; rfl
  | cons tid ts ih =>
      intro acc
      cases hg : s.get_unit tid with
      | none => simp [fbtsLoop, hg, spatialCands, candList, ih]
      | some t =>
          cases hv : validTarget a t with
          | false =>
              simp [fbtsLoop, hg, hv, spatialCands, candList, ih]
          | true =>
              have hc : spatialCands a s (tid :: ts) =
                  (t.id, distSq a.position t.position) ::
                    spatialCands a s ts := by
                simp [spatialCands, candList, hg, hv]
              cases acc with
              | none => simp [fbtsLoop, hg, hv, hc, scanMin, ih]
              | some p =>
                  obtain ⟨b, m⟩ := p
                  by_cases hd : distSq a.position t.position < m
                  · simp [fbtsLoop, hg, hv, hc, scanMin, hd, ih]
                  · simp [fbtsLoop, hg, hv, hc, scanMin, hd, ih]

/-- `scanMin` with a populated accumulator is `runMin`. -/
theorem scanMin_some (l : List (ℕ × ℚ)) :
    ∀ p, scanMin l (some p) = some (runMin p l) := by
  induction l with
  | nil => intro p; rfl
  | cons q qs ih =>
      intro p
      by_cases h : q.2 < p.2 <;> simp [scanMin, runMin, h, ih]

/-- `scanMin` from the sentinel returns `none` exactly on the empty list. -/
theorem scanMin_none_iff (l : List (ℕ × ℚ)) :
    scanMin l none = none ↔ l = [] := by
  cases l with
  | nil => simp [scanMin]
  | cons q qs => simp [scanMin, scanMin_some]

/-- The `runMin` result has minimal distance among the start and the list. -/
theorem runMin_le_all (l : List (ℕ × ℚ)) :
    ∀ p, ∀ r ∈ p :: l, (runMin p l).2 ≤ r.2 := by
  induction l with
  | nil =>
      intro p r hr
      rcases List.mem_cons.mp hr with rfl | hr'
      · exact le_refl _
      · simp at hr'
  | cons q qs ih =>
      intro p r hr
      rcases List.mem_cons.mp hr with rfl | hr'
      · by_cases h : q.2 < r.2
        · simpa [runMin, h] using le_trans (ih q q (by simp)) h.le
        · simpa [runMin, h] using ih r r (by simp)
      · rcases List.mem_cons.mp hr' with rfl | hr''
        · by_cases h : r.2 < p.2
          · simpa [runMin, h] using ih r r (by simp)
          · simpa [runMin, h] using le_trans (ih p p (by simp)) (not_lt.mp h)
        · by_cases h : q.2 < p.2
          · simpa [runMin, h] using ih q r (by simp [hr''])
          · simpa [runMin, h] using ih p r (by simp [hr''])

/-- `runMin` returns the unique strict minimiser when there is one. -/
theorem runMin_eq_of_unique (p : ℕ × ℚ) :
    ∀ (qs : List (ℕ × ℚ)) (c : ℕ × ℚ), p ∈ c :: qs →
      (∀ r ∈ c :: qs, r ≠ p → p.2 < r.2) → runMin c qs = p := by
  intro qs
  induction qs with
  | nil =>
      intro c hp _
      simp at hp
      simp [runMin, hp]
  | cons q qs' ih =>
      intro c hp huniq
      by_cases hqc : q.2 < c.2
      · simp only [runMin, if_pos hqc]
        refine ih q ?_ ?_
        · rcases List.mem_cons.mp hp with rfl | hp'
          · -- p = c, yet q.2 < p.2; uniqueness forces q = p
            by_cases hqp : q = p
            · simp [hqp]
            · exact absurd (huniq q (by simp) hqp) (lt_asymm hqc)
          · exact hp'
        · intro r hr hrp
          exact huniq r (List.mem_cons_of_mem c hr) hrp
      · simp only [runMin, if_neg hqc]
        refine ih c ?_ ?_
        · rcases List.mem_cons.mp hp with rfl | hp'
          · simp
          · rcases List.mem_cons.mp hp' with rfl | hp''
            · -- p = q and ¬ q.2 < c.2; uniqueness forces c = p
              by_cases hcp : c = p
              · simp [hcp]
              · exact absurd (huniq c (by simp) hcp) (by simpa using hqc)
            · simp [hp'']
        · intro r hr hrp
          rcases List.mem_cons.mp hr with rfl | hmem
          · exact huniq r (by simp) hrp
          · exact huniq r (by simp [hmem]) hrp

/-- `scanMin` from the sentinel returns the unique strict minimiser. -/
theorem scanMin_eq_of_unique (l : List (ℕ × ℚ)) (p : ℕ × ℚ) (hp : p ∈ l)
    (huniq : ∀ q ∈ l, q ≠ p → p.2 < q.2) : scanMin l none = some p := by
  cases l with
  | nil => simp at hp
  | cons c cs =>
      rw [show scanMin (c :: cs) none = scanMin cs (some c) from rfl,
        scanMin_some]
      exact congrArg some (runMin_eq_of_unique p cs c hp huniq)

/-- `runMin` either keeps its start or returns the first strict minimiser of
the list. -/
theorem runMin_cases :
    ∀ (cs : List (ℕ × ℚ)) (c : ℕ × ℚ),
      runMin c cs = c ∨
      ∃ pre q post, cs = pre ++ q :: post ∧ runMin c cs = q ∧ q.2 < c.2 ∧
        ∀ r ∈ pre, q.2 < r.2 := by
  intro cs
  induction cs with
  | nil => intro c; left; rfl
  | cons q qs ih =>
      intro c
      by_cases hq : q.2 < c.2
      · rcases ih q with h1 | ⟨pre, q', post, hqs, hrm, hlt, hpre⟩
        · right
          exact ⟨[], q, qs, rfl, by simp [runMin, hq, h1], hq, by simp⟩
        · right
          refine ⟨q :: pre, q', post, by simp [hqs],
            by simp [runMin, hq, hrm], lt_trans hlt hq, ?_⟩
          intro r hr
          rcases List.mem_cons.mp hr with rfl | hr'
          · exact hlt
          · exact hpre r hr'
      · rcases ih c with h1 | ⟨pre, q', post, hqs, hrm, hlt, hpre⟩
        · left; simp [runMin, hq, h1]
        · right
          refine ⟨q :: pre, q', post, by simp [hqs],
            by simp [runMin, hq, hrm], hlt, ?_⟩
          intro r hr
          rcases List.mem_cons.mp hr with rfl | hr'
          · exact lt_of_lt_of_le hlt (not_lt.mp hq)
          · exact hpre r hr'

/-- Membership in the candidate list. -/
theorem candList_mem_iff (a : CombatUnit) (l : List CombatUnit)
    (p : ℕ × ℚ) :
    p ∈ candList a l ↔ ∃ t ∈ l, validTarget a t = true ∧
      p = (t.id, distSq a.position t.position) := by
  simp only [candList, List.mem_map, List.mem_filter]
  constructor
  · rintro ⟨t, ⟨ht, hv⟩, rfl⟩
    exact ⟨t, ht, hv, rfl⟩
  · rintro ⟨t, ht, hv, rfl⟩
    exact ⟨t, ⟨ht, hv⟩, rfl⟩

/-- Pulling a decomposition of the candidate list back to the roster. -/
theorem candList_decomp (a : CombatUnit) :
    ∀ (l : List CombatUnit) (A B : List (ℕ × ℚ)) (b : ℕ × ℚ),
      candList a l = A ++ b :: B →
      ∃ pre t post, l = pre ++ t :: post ∧ validTarget a t = true ∧
        b = (t.id, distSq a.position t.position) ∧
        candList a pre = A ∧ candList a post = B := by
  intro l
  induction l with
  | nil =>
      intro A B b h
      simp [candList] at h
  | cons x xs ih =>
      intro A B b h
      cases hv : validTarget a x with
      | false =>
          have hx : candList a (x :: xs) = candList a xs := by
            simp [candList, hv]
          rw [hx] at h
          obtain ⟨pre, t, post, rfl, ht, hb, hpre, hpost⟩ := ih A B b h
          exact ⟨x :: pre, t, post, rfl, ht, hb,
            by simp [candList, hv, ← hpre, List.filter_cons], hpost⟩
      | true =>
          have hx : candList a (x :: xs) =
              (x.id, distSq a.position x.position) :: candList a xs := by
            simp [candList, hv]
          rw [hx] at h
          cases A with
          | nil =>
              simp only [List.nil_append, List.cons.injEq] at h
              exact ⟨[], x, xs, rfl, hv, h.1.symm, by simp [candList], h.2⟩
          | cons a0 A' =>
              simp only [List.cons_append, List.cons.injEq] at h
              obtain ⟨pre, t, post, rfl, ht, hb, hpre, hpost⟩ :=
                ih A' B b h.2
              refine ⟨x :: pre, t, post, rfl, ht, hb, ?_, hpost⟩
              simp [candList, hv, ← hpre, ← h.1, List.filter_cons]

/-- **C5**: `find_best_target` returns `none` exactly when no unit is
simultaneously alive, distinct from the attacker and of a different faction;
otherwise it returns the id of the valid candidate of minimum squared
Euclidean distance, earliest in roster order among ties; in particular with
A (faction 0) and enemies B, C (faction 1) at distances 10 and 20, A
acquires B, and a same-faction unit at distance 1 is never selected (A picks
the enemy E at distance 50 instead). -/
theorem find_best_target_spec (attacker : CombatUnit) (state : BattleState) :
    (find_best_target attacker state = none ↔
      ∀ t ∈ state.units, validTarget attacker t = false) ∧
    (∀ id, find_best_target attacker state = some id →
      ∃ pre t post, state.units = pre ++ t :: post ∧
        validTarget attacker t = true ∧ id = t.id ∧
        (∀ q ∈ state.units, validTarget attacker q = true →
          distSq attacker.position t.position ≤
            distSq attacker.position q.position) ∧
        (∀ q ∈ pre, validTarget attacker q = true →
          distSq attacker.position t.position <
            distSq attacker.position q.position)) ∧
    find_best_target tA stABC = some 1 ∧
    find_best_target tA stADE = some 4 := by
  refine ⟨?_, ?_, ?_, ?_⟩
  · rw [find_best_target, fbtLoop_eq_scanMin]
    rw [Option.map_eq_none', scanMin_none_iff]
    constructor
    · intro h t ht
      by_contra hv
      have : (t.id, distSq attacker.position t.position) ∈
          candList attacker state.units := by
        rw [candList_mem_iff]
        exact ⟨t, ht, by simpa using hv, rfl⟩
      simp [h] at this
    · intro h
      cases hc : candList attacker state.units with
      | nil => rfl
      | cons c cs =>
          exfalso
          have : c ∈ candList attacker state.units := by simp [hc]
          rw [candList_mem_iff] at this
          obtain ⟨t, ht, hv, _⟩ := this
          simp [h t ht] at hv
  · intro id hid
    rw [find_best_target, fbtLoop_eq_scanMin] at hid
    cases hc : candList attacker state.units with
    | nil =>
        rw [hc] at hid
        exact Option.noConfusion hid
    | cons c cs =>
        rw [hc] at hid
        rw [show scanMin (c :: cs) none = scanMin cs (some c) from rfl,
          scanMin_some] at hid
        simp only [Option.map_some', Option.some.injEq] at hid
        have hmin : ∀ r ∈ c :: cs, (runMin c cs).2 ≤ r.2 := runMin_le_all cs c
        rcases runMin_cases cs c with h1 |
          ⟨pre', q, post', hcs, hrm, hltc, hpre'⟩
        · -- `runMin` kept the first candidate
          obtain ⟨pre, t, post, hsplit, hv, hb, hpreA, hpostB⟩ :=
            candList_decomp attacker state.units [] cs c (by simpa using hc)
          refine ⟨pre, t, post, hsplit, hv, by rw [← hid, h1, hb], ?_, ?_⟩
          · intro u hu huv
            have hmem : (u.id, distSq attacker.position u.position) ∈
                candList attacker state.units := by
              rw [candList_mem_iff]; exact ⟨u, hu, huv, rfl⟩
            rw [hc] at hmem
            have := hmin _ hmem
            rw [h1, hb] at this
            simpa using this
          · intro u hu huv
            have hmem : (u.id, distSq attacker.position u.position) ∈
                candList attacker pre := by
              rw [candList_mem_iff]; exact ⟨u, hu, huv, rfl⟩
            rw [hpreA] at hmem
            simp at hmem
        · -- `runMin` landed strictly inside the tail
          obtain ⟨pre, t, post, hsplit, hv, hb, hpreA, hpostB⟩ :=
            candList_decomp attacker state.units (c :: pre') post' q
              (by rw [hc, hcs]; rfl)
          refine ⟨pre, t, post, hsplit, hv, by rw [← hid, hrm, hb], ?_, ?_⟩
          · intro u hu huv
            have hmem : (u.id, distSq attacker.position u.position) ∈
                candList attacker state.units := by
              rw [candList_mem_iff]; exact ⟨u, hu, huv, rfl⟩
            rw [hc] at hmem
            have := hmin _ hmem
            rw [hrm, hb] at this
            simpa using this
          · intro u hu huv
            have hmem : (u.id, distSq attacker.position u.position) ∈
                candList attacker pre := by
              rw [candList_mem_iff]; exact ⟨u, hu, huv, rfl⟩
            rw [hpreA] at hmem
            have hlt : ∀ r ∈ c :: pre', q.2 < r.2 := by
              intro r hr
              rcases List.mem_cons.mp hr with rfl | hr'
              · exact hltc
              · exact hpre' r hr'
            have := hlt _ hmem
            rw [hb] at this
            simpa using this
  · norm_num [find_best_target, fbtLoop, validTarget, distSq, stABC, tA, tB,
      tC, mkUnit, CombatUnit.new, BattleState.new]
  · norm_num [find_best_target, fbtLoop, validTarget, distSq, stADE, tA, tD,
      tE, mkUnit, CombatUnit.new, BattleState.new]

/-- Witness for the hypotheses of `find_best_target_spec`. -/
theorem find_best_target_spec_witness :
    find_best_target tA stABC = some 1 ∧
    (∃ pre t post, stABC.units = pre ++ t :: post ∧
      validTarget tA t = true ∧ (1 : ℕ) = t.id ∧
      (∀ q ∈ stABC.units, validTarget tA q = true →
        distSq tA.position t.position ≤ distSq tA.position q.position) ∧
      (∀ q ∈ pre, validTarget tA q = true →
        distSq tA.position t.position < distSq tA.position q.position)) := by
  have h := find_best_target_spec tA stABC
  exact ⟨h.2.2.1, (find_best_target_spec tA stABC).2.1 1 h.2.2.1⟩

/-- Characterisation of the fuel-based range. -/
theorem mem_rangeZFuel :
    ∀ (n : ℕ) (lo z : ℤ), z ∈ rangeZFuel n lo ↔ lo ≤ z ∧ z < lo + n := by
  intro n
  induction n with
  | zero =>
      intro lo z
      simp [rangeZFuel]
  | succ m ih =>
      intro lo z
      simp only [rangeZFuel, List.mem_cons, ih (lo + 1) z]
      constructor
      · rintro (rfl | ⟨h1, h2⟩) <;> [skip; skip] <;> push_cast <;> omega
      · rintro ⟨h1, h2⟩
        rcases eq_or_lt_of_le h1 with rfl | hlt
        · exact Or.inl rfl
        · right
          push_cast at h2 ⊢
          omega

/-- Characterisation of the inclusive integer range. -/
theorem mem_rangeZ {lo hi z : ℤ} : z ∈ rangeZ lo hi ↔ lo ≤ z ∧ z ≤ hi := by
  unfold rangeZ
  rw [mem_rangeZFuel]
  rcases le_or_lt lo (hi + 1) with hle | hgt
  · rw [Int.toNat_of_nonneg (by omega)]
    omega
  · rw [Int.toNat_of_nonpos (by omega)]
    omega

/-- Truncation toward zero is monotone. -/
theorem truncZ_mono {q r : ℚ} (h : q ≤ r) : truncZ q ≤ truncZ r := by
  unfold truncZ
  split_ifs with h1 h2 h3
  · exact Int.ceil_mono h
  · have hc : (⌈q⌉ : ℤ) ≤ 0 := Int.ceil_le.mpr (by exact_mod_cast h1.le)
    have hf : (0 : ℤ) ≤ ⌊r⌋ := Int.le_floor.mpr (by exact_mod_cast not_lt.mp h2)
    omega
  · exact absurd (lt_of_le_of_lt h h3) h1
  · exact Int.floor_mono h

/-- A living unit within Chebyshev distance `radius` of the query point is
reported by `get_nearby`. -/
theorem mem_get_nearby (state : BattleState) (cell_size : ℚ)
    (hcs : 0 < cell_size) (pos : ℚ × ℚ) (radius : ℚ) (t : CombatUnit)
    (ht : t ∈ state.units) (halive : t.is_alive = true)
    (hx : |t.position.1 - pos.1| ≤ radius)
    (hy : |t.position.2 - pos.2| ≤ radius) :
    t.id ∈ get_nearby state cell_size pos radius := by
  obtain ⟨hx1, hx2⟩ := abs_le.mp hx
  obtain ⟨hy1, hy2⟩ := abs_le.mp hy
  have hcx1 : truncZ ((pos.1 - radius) / cell_size) ≤
      truncZ (t.position.1 / cell_size) :=
    truncZ_mono ((div_le_div_iff_of_pos_right hcs).mpr (by linarith))
  have hcx2 : truncZ (t.position.1 / cell_size) ≤
      truncZ ((pos.1 + radius) / cell_size) :=
    truncZ_mono ((div_le_div_iff_of_pos_right hcs).mpr (by linarith))
  have hcy1 : truncZ ((pos.2 - radius) / cell_size) ≤
      truncZ (t.position.2 / cell_size) :=
    truncZ_mono ((div_le_div_iff_of_pos_right hcs).mpr (by linarith))
  have hcy2 : truncZ (t.position.2 / cell_size) ≤
      truncZ ((pos.2 + radius) / cell_size) :=
    truncZ_mono ((div_le_div_iff_of_pos_right hcs).mpr (by linarith))
  unfold get_nearby
  simp only [List.mem_flatMap]
  refine ⟨truncZ (t.position.1 / cell_size), ?_,
    truncZ (t.position.2 / cell_size), ?_, ?_⟩
  · rw [mem_rangeZ]; exact ⟨hcx1, hcx2⟩
  · rw [mem_rangeZ]; exact ⟨hcy1, hcy2⟩
  · simp only [List.mem_map]
    refine ⟨t, ?_, rfl⟩
    rw [List.mem_filter]
    exact ⟨ht, by simp [halive, cellOf]⟩

/-- `get_unit` returns a roster member carrying the requested id. -/
theorem get_unit_mem {s : BattleState} {tid : ℕ} {t : CombatUnit}
    (h : s.get_unit tid = some t) : t ∈ s.units ∧ t.id = tid := by
  unfold BattleState.get_unit at h
  refine ⟨List.mem_of_find?_eq_some h, ?_⟩
  have := List.find?_some h
  simpa using this

/-- With pairwise-distinct ids, `find?` by id recovers any member. -/
theorem find?_id_of_pairwise :
    ∀ (l : List CombatUnit), l.Pairwise (fun u v => u.id ≠ v.id) →
      ∀ t ∈ l, l.find? (fun u => u.id == t.id) = some t := by
  intro l
  induction l with
  | nil => intro _ t ht; simp at ht
  | cons x xs ih =>
      intro hp t ht
      rcases List.mem_cons.mp ht with rfl | ht'
      · rw [List.find?_cons_of_pos _ (by simp)]
      · have hxt : x.id ≠ t.id := (List.pairwise_cons.mp hp).1 t ht'
        rw [List.find?_cons_of_neg _ (by simpa using hxt)]
        exact ih (List.pairwise_cons.mp hp).2 t ht'

/-- With pairwise-distinct ids, the id determines the member. -/
theorem id_injective_of_pairwise :
    ∀ (l : List CombatUnit), l.Pairwise (fun u v => u.id ≠ v.id) →
      ∀ t ∈ l, ∀ u ∈ l, t.id = u.id → t = u := by
  intro l
  induction l with
  | nil => intro _ t ht; simp at ht
  | cons x xs ih =>
      intro hp t ht u hu heq
      obtain ⟨hhead, htail⟩ := List.pairwise_cons.mp hp
      rcases List.mem_cons.mp ht with rfl | ht'
      · rcases List.mem_cons.mp hu with rfl | hu'
        · rfl
        · exact absurd heq (hhead u hu')
      · rcases List.mem_cons.mp hu with rfl | hu'
        · exact absurd heq.symm (hhead t ht')
        · exact ih htail t ht' u hu' heq

/-- A nonempty pair list has a member with minimal second component. -/
theorem exists_min_pair :
    ∀ (l : List (ℕ × ℚ)), l ≠ [] → ∃ p ∈ l, ∀ q ∈ l, p.2 ≤ q.2 := by
  intro l
  induction l with
  | nil => intro h; exact absurd rfl h
  | cons x xs ih =>
      intro _
      cases xs with
      | nil =>
          refine ⟨x, by simp, ?_⟩
          intro q hq
          rcases List.mem_cons.mp hq with rfl | hq'
          · exact le_refl _
          · simp at hq'
      | cons y ys =>
          obtain ⟨p, hp, hmin⟩ := ih (by simp)
          by_cases h : p.2 ≤ x.2
          · refine ⟨p, List.mem_cons_of_mem x hp, ?_⟩
            intro q hq
            rcases List.mem_cons.mp hq with rfl | hq'
            · exact h
            · exact hmin q hq'
          · refine ⟨x, by simp, ?_⟩
            intro q hq
            rcases List.mem_cons.mp hq with rfl | hq'
            · exact le_refl _
            · exact le_trans (not_le.mp h).le (hmin q hq')

/-- Two strict-minimum scans over member-equivalent, tie-free candidate
lists agree. -/
theorem scanMin_eq_of_mem_equiv (L1 L2 : List (ℕ × ℚ))
    (h12 : ∀ p ∈ L1, p ∈ L2) (h21 : ∀ p ∈ L2, p ∈ L1)
    (huniq : ∀ p ∈ L1, ∀ q ∈ L1, p ≠ q → p.2 ≠ q.2) :
    scanMin L1 none = scanMin L2 none := by
  cases hL1 : L1 with
  | nil =>
      have hL2 : L2 = [] := by
        cases hL2 : L2 with
        | nil => rfl
        | cons y ys =>
            have := h21 y (by simp [hL2])
            rw [hL1] at this
            simp at this
      rw [hL2]
  | cons c cs =>
      have hne : L1 ≠ [] := by simp [hL1]
      obtain ⟨p, hp, hmin⟩ := exists_min_pair L1 hne
      have hstrict1 : ∀ q ∈ L1, q ≠ p → p.2 < q.2 := by
        intro q hq hqp
        exact lt_of_le_of_ne (hmin q hq) (Ne.symm (huniq q hq p hp hqp))
      have h1 : scanMin L1 none = some p := by
        rw [hL1]
        exact scanMin_eq_of_unique (c :: cs) p (hL1 ▸ hp)
          (fun q hq hqp => hstrict1 q (hL1 ▸ hq) hqp)
      have hstrict2 : ∀ q ∈ L2, q ≠ p → p.2 < q.2 := by
        intro q hq hqp
        exact hstrict1 q (h21 q hq) hqp
      have h2 : scanMin L2 none = some p :=
        scanMin_eq_of_unique L2 p (h12 p hp) hstrict2
      rw [← hL1, h1, h2]

/-- **C1 (amended)**: at any positive cell size, on a state with
pairwise-distinct unit ids, whenever every valid enemy of the attacker lies
within the spatial query square (Chebyshev distance from the attacker at
most the search radius `max(longest weapon range, 50)`) and no two distinct
valid candidates are equidistant from the attacker, the indexed path
(`find_best_target_spatial` over the hash of living units) returns exactly
the same result as the unindexed `find_best_target`. -/
theorem targeting_paths_agree (attacker : CombatUnit) (state : BattleState)
    (cell_size : ℚ) (hcs : 0 < cell_size)
    (hids : state.units.Pairwise (fun u v => u.id ≠ v.id))
    (hwin : ∀ t ∈ state.units, validTarget attacker t = true →
      |t.position.1 - attacker.position.1| ≤
          max ((attacker.weapons.map (fun w => w.range)).foldl max 0) 50 ∧
        |t.position.2 - attacker.position.2| ≤
          max ((attacker.weapons.map (fun w => w.range)).foldl max 0) 50)
    (hties : ∀ t ∈ state.units, ∀ u ∈ state.units,
      validTarget attacker t = true → validTarget attacker u = true →
      t.id ≠ u.id →
      distSq attacker.position t.position ≠
        distSq attacker.position u.position) :
    find_best_target_spatial attacker state cell_size =
      find_best_target attacker state := by
  simp only [find_best_target_spatial, find_best_target]
  rw [fbtLoop_eq_scanMin, fbtsLoop_eq_scanMin]
  congr 1
  apply scanMin_eq_of_mem_equiv
  · -- spatial candidates are linear candidates
    intro p hp
    rw [spatialCands, candList_mem_iff] at hp
    obtain ⟨t, ht, hv, rfl⟩ := hp
    obtain ⟨tid, _, hres⟩ := List.mem_filterMap.mp ht
    rw [candList_mem_iff]
    exact ⟨t, (get_unit_mem hres).1, hv, rfl⟩
  · -- linear candidates appear among the spatial ones
    intro p hp
    rw [candList_mem_iff] at hp
    obtain ⟨t, ht, hv, rfl⟩ := hp
    have halive : t.is_alive = true := by
      have hv' := hv
      unfold validTarget at hv'
      simp only [Bool.and_eq_true] at hv'
      exact hv'.1.1
    have hchev := hwin t ht hv
    have hmemnb : t.id ∈ get_nearby state cell_size attacker.position
        (max ((attacker.weapons.map (fun w => w.range)).foldl max 0) 50) :=
      mem_get_nearby state cell_size hcs attacker.position _ t ht halive
        hchev.1 hchev.2
    have hgu : state.get_unit t.id = some t :=
      find?_id_of_pairwise state.units hids t ht
    rw [spatialCands, candList_mem_iff]
    exact ⟨t, List.mem_filterMap.mpr ⟨t.id, hmemnb, hgu⟩, hv, rfl⟩
  · -- no ties among the spatial candidates
    intro p hp q hq hpq
    rw [spatialCands, candList_mem_iff] at hp hq
    obtain ⟨t, ht, htv, rfl⟩ := hp
    obtain ⟨u, hu, huv, rfl⟩ := hq
    obtain ⟨tid, _, hrest⟩ := List.mem_filterMap.mp ht
    obtain ⟨uid, _, hresu⟩ := List.mem_filterMap.mp hu
    have htm := (get_unit_mem hrest).1
    have hum := (get_unit_mem hresu).1
    have hne : t.id ≠ u.id := by
      intro hideq
      exact hpq (by rw [id_injective_of_pairwise state.units hids t htm u
        hum hideq])
    intro hd2
    exact hties t htm u hum htv huv hne (by simpa using hd2)

/-- Witness for the hypotheses of `targeting_paths_agree`. -/
theorem targeting_paths_agree_witness :
    (0 : ℚ) < 100 ∧
    find_best_target_spatial w1A w1State 100 =
      find_best_target w1A w1State := by
  refine ⟨by norm_num,
    targeting_paths_agree w1A w1State 100 (by norm_num) ?_ ?_ ?_⟩
  · simp [w1State, w1A, w1B, mkUnit, CombatUnit.new, BattleState.new]
  · intro t ht hv
    simp only [w1State] at ht
    simp only [List.mem_cons, List.not_mem_nil, or_false] at ht
    rcases ht with rfl | rfl
    · simp [validTarget, w1A, mkUnit, CombatUnit.new] at hv
    · constructor <;>
        norm_num [w1A, w1B, mkUnit, CombatUnit.new, max_def]
  · intro t ht u hu htv huv hne
    simp only [w1State] at ht hu
    simp only [List.mem_cons, List.not_mem_nil, or_false] at ht hu
    rcases ht with rfl | rfl
    · simp [validTarget, w1A, mkUnit, CombatUnit.new] at htv
    · rcases hu with rfl | rfl
      · simp [validTarget, w1A, mkUnit, CombatUnit.new] at huv
      · exact absurd rfl hne

/-- **C1 counterexample**: an attacker with no weapons (search radius 50)
and the only enemy at distance 100: with a hash of cell size 100 the
unindexed path acquires the enemy while the spatial path returns `none`. -/
theorem targeting_paths_cx :
    find_best_target cxA cxState = some 1 ∧
    find_best_target_spatial cxA cxState 100 = none := by
  constructor
  · norm_num [find_best_target, fbtLoop, validTarget, distSq, cxState, cxA,
      cxB, mkUnit, CombatUnit.new, BattleState.new, BattleState.add_unit]
  · have hc1 : (⌈-((1:ℚ)/2)⌉ : ℤ) = 0 := by norm_num
    norm_num [find_best_target_spatial, fbtsLoop, get_nearby, rangeZ,
      rangeZFuel, truncZ, cellOf, validTarget, distSq, BattleState.get_unit,
      cxState, cxA, cxB, mkUnit, CombatUnit.new, BattleState.new,
      BattleState.add_unit, List.find?, max_def, hc1]

/-! ### Generic update/enumeration lemmas -/

/-- Pointwise description of `updateAt`. -/
theorem updateAt_get? (f : α → α) :
    ∀ (l : List α) (i j : ℕ),
      (updateAt l i f).get? j =
        if j = i then (l.get? j).map f else l.get? j := by
  intro l
  induction l with
  | nil => intro i j; simp [updateAt]
  | cons x xs ih =>
      intro i j
      cases i with
      | zero =>
          cases j with
          | zero => simp [updateAt]
          | succ j' => simp [updateAt]
      | succ i' =>
          cases j with
          | zero => simp [updateAt]
          | succ j' =>
              simp only [updateAt, List.get?_cons_succ]
              rw [ih i' j']
              by_cases h : j' = i' <;> simp [h]

/-- A fold of index updates preserves any projection the updates fix. -/
theorem foldl_updateAt_proj {β γ : Type _} (proj : α → γ) (idx : β → ℕ)
    (g : β → α → α) (hg : ∀ m x, proj (g m x) = proj x) :
    ∀ (ms : List β) (l : List α) (j : ℕ),
      ((ms.foldl (fun us m => updateAt us (idx m) (g m)) l).get? j).map proj
        = (l.get? j).map proj := by
  intro ms
  induction ms with
  | nil => intro l j; rfl
  | cons m ms ih =>
      intro l j
      rw [List.foldl_cons, ih, updateAt_get?]
      split_ifs with h
      · cases hl : l.get? j <;> simp [hg]
      · rfl

/-- A fold of index updates leaves untouched indices unchanged. -/
theorem foldl_updateAt_frame {β : Type _} (idx : β → ℕ) (g : β → α → α) :
    ∀ (ms : List β) (l : List α) (j : ℕ), (∀ m ∈ ms, idx m ≠ j) →
      (ms.foldl (fun us m => updateAt us (idx m) (g m)) l).get? j =
        l.get? j := by
  intro ms
  induction ms with
  | nil => intro l j _; rfl
  | cons m ms ih =>
      intro l j h
      rw [List.foldl_cons, ih _ _ (fun m' hm' => h m' (by simp [hm']))]
      rw [updateAt_get?, if_neg (fun hj => h m (by simp) hj.symm)]

/-- Values after a fold of index updates: unchanged, or produced by one of
the updates targeted at that index. -/
theorem foldl_updateAt_value {β : Type _} (idx : β → ℕ) (g : β → α → α) :
    ∀ (ms : List β) (l : List α) (j : ℕ) (x : α), l.get? j = some x →
      ∃ y, (ms.foldl (fun us m => updateAt us (idx m) (g m)) l).get? j =
          some y ∧
        (y = x ∨ ∃ m ∈ ms, idx m = j ∧ ∃ z, y = g m z) := by
  intro ms
  induction ms with
  | nil => intro l j x hx; exact ⟨x, hx, Or.inl rfl⟩
  | cons m ms ih =>
      intro l j x hx
      rw [List.foldl_cons]
      by_cases hj : j = idx m
      · have hx' : (updateAt l (idx m) (g m)).get? j = some (g m x) := by
          rw [updateAt_get?, if_pos hj, hx]; rfl
        obtain ⟨y, hy, hcase⟩ := ih _ _ _ hx'
        refine ⟨y, hy, ?_⟩
        rcases hcase with rfl | ⟨m', hm', hj', z, hz⟩
        · exact Or.inr ⟨m, by simp, hj.symm, x, rfl⟩
        · exact Or.inr ⟨m', by simp [hm'], hj', z, hz⟩
      · have hx' : (updateAt l (idx m) (g m)).get? j = some x := by
          rw [updateAt_get?, if_neg hj, hx]
        obtain ⟨y, hy, hcase⟩ := ih _ _ _ hx'
        refine ⟨y, hy, ?_⟩
        rcases hcase with rfl | ⟨m', hm', hj', z, hz⟩
        · exact Or.inl rfl
        · exact Or.inr ⟨m', by simp [hm'], hj', z, hz⟩

/-- Pointwise description of `updateFirst`. -/
theorem updateFirst_get? (p : α → Bool) (f : α → α) :
    ∀ (l : List α) (j : ℕ),
      (updateFirst p f l).get? j = l.get? j ∨
      ∃ x, l.get? j = some x ∧ p x = true ∧
        (updateFirst p f l).get? j = some (f x) := by
  intro l
  induction l with
  | nil => intro j; left; rfl
  | cons x xs ih =>
      intro j
      by_cases hp : p x
      · cases j with
        | zero => right; exact ⟨x, rfl, hp, by simp [updateFirst, hp]⟩
        | succ j' => left; simp [updateFirst, hp]
      · cases j with
        | zero => left; simp [updateFirst, hp]
        | succ j' =>
            rcases ih j' with h | ⟨y, hy, hpy, hy'⟩
            · left; simpa [updateFirst, hp] using h
            · right
              exact ⟨y, by simpa using hy, hpy,
                by simpa [updateFirst, hp] using hy'⟩

/-- The roster part of `updateFirstD` is an `updateFirst`. -/
theorem updateFirstD_fst (p : α → Bool) (f : α → α × Bool) :
    ∀ (l : List α),
      (updateFirstD p f l).1 = updateFirst p (fun x => (f x).1) l := by
  intro l
  induction l with
  | nil => rfl
  | cons x xs ih =>
      by_cases hp : p x <;> simp [updateFirstD, updateFirst, hp, ih]

/-- Pointwise description of the enumeration. -/
theorem enumFrom_get? :
    ∀ (l : List α) (n i : ℕ),
      (enumFrom n l).get? i = (l.get? i).map (fun x => (n + i, x)) := by
  intro l
  induction l with
  | nil => intro n i; simp [enumFrom]
  | cons x xs ih =>
      intro n i
      cases i with
      | zero => simp [enumFrom]
      | succ i' =>
          simp only [enumFrom, List.get?_cons_succ, ih (n + 1) i']
          have hnn : n + 1 + i' = n + (i' + 1) := by omega
          rw [hnn]

/-- Membership in the enumeration. -/
theorem mem_enumL {l : List α} {p : ℕ × α} :
    p ∈ enumL l ↔ l.get? p.1 = some p.2 := by
  rw [List.mem_iff_get?]
  constructor
  · rintro ⟨i, hi⟩
    rw [enumL, enumFrom_get?] at hi
    cases hx : l.get? i with
    | none => rw [hx] at hi; exact Option.noConfusion hi
    | some x =>
        rw [hx] at hi
        simp only [Option.map_some', Option.some.injEq] at hi
        rw [← hi]
        simpa using hx
  · intro h
    refine ⟨p.1, ?_⟩
    rw [enumL, enumFrom_get?, h]
    simp

/-! ### Pass-level lemmas -/

/-- Every collected move targets a living unit. -/
theorem moveList_spec (F : FloatOps) (units : List CombatUnit) :
    ∀ m ∈ moveList F units, ∃ u, units.get? m.1 = some u ∧
      u.is_alive = true := by
  intro m hm
  obtain ⟨p, hp, hf⟩ := List.mem_filterMap.mp hm
  have hpu := mem_enumL.mp hp
  by_cases ha : p.2.is_alive = true
  · by_cases hs : p.2.speed ≤ 0
    · simp [ha, hs] at hf
    · cases ht : p.2.target_id with
      | none => simp [ha, hs, ht] at hf
      | some tid =>
          cases hg : hashGet (units.map (fun u => (u.id, u.position))) tid with
          | none => simp [ha, hs, ht, hg] at hf
          | some tp =>
              simp only [ha, hs, ht, hg, Bool.not_true, Bool.false_eq_true,
                if_false] at hf
              by_cases hd : F.sqrt ((tp.1 - p.2.position.1) *
                  (tp.1 - p.2.position.1) + (tp.2 - p.2.position.2) *
                  (tp.2 - p.2.position.2)) > 20
              · by_cases hmd : min p.2.speed (F.sqrt ((tp.1 - p.2.position.1) *
                    (tp.1 - p.2.position.1) + (tp.2 - p.2.position.2) *
                    (tp.2 - p.2.position.2)) - 20) > 0
                · simp only [hd, hmd, if_true] at hf
                  rw [Option.some_inj] at hf
                  rw [← hf]
                  exact ⟨p.2, hpu, ha⟩
                · simp [hd, hmd] at hf
              · simp [hd] at hf
  · simp [ha] at hf

/-- Movement preserves every field but `position`. -/
theorem movementPass_proj {γ : Type _} (proj : CombatUnit → γ)
    (hproj : ∀ u p, proj { u with position := p } = proj u)
    (F : FloatOps) (units : List CombatUnit) (j : ℕ) :
    ((movementPass F units).get? j).map proj = (units.get? j).map proj :=
  foldl_updateAt_proj proj Prod.fst
    (fun m u => { u with position := m.2 }) (fun m x => hproj x m.2)
    (moveList F units) units j

/-- Movement leaves dead units untouched. -/
theorem movementPass_dead (F : FloatOps) (units : List CombatUnit) (j : ℕ)
    (u : CombatUnit) (hj : units.get? j = some u)
    (hd : u.is_alive = false) : (movementPass F units).get? j = some u := by
  rw [movementPass, foldl_updateAt_frame]
  · exact hj
  · intro m hm hmj
    obtain ⟨v, hv, hva⟩ := moveList_spec F units m hm
    rw [hmj, hj] at hv
    cases hv
    rw [hva] at hd
    exact Bool.noConfusion hd

/-- Every collected retarget pair records a living unit and a successful
`find_best_target` call against the same state. -/
theorem newTargets_spec (s : BattleState) :
    ∀ m ∈ newTargets s, ∃ u, s.units.get? m.1 = some u ∧
      u.is_alive = true ∧ find_best_target u s = some m.2 := by
  intro m hm
  obtain ⟨p, hp, hf⟩ := List.mem_filterMap.mp hm
  have hpu := mem_enumL.mp hp
  by_cases ha : p.2.is_alive = true
  · by_cases hn : needsTarget s.units p.2 = true
    · simp only [ha, Bool.not_true, Bool.false_eq_true, if_false, hn,
        if_true] at hf
      cases hfb : find_best_target p.2 s with
      | none => rw [hfb] at hf; exact Option.noConfusion hf
      | some tid =>
          rw [hfb] at hf
          simp only [Option.map_some', Option.some_inj] at hf
          rw [← hf]
          exact ⟨p.2, hpu, ha, hfb⟩
    · simp [ha, hn] at hf
  · simp [ha] at hf

/-- Targeting preserves every field but `target_id`. -/
theorem targetingPass_proj {γ : Type _} (proj : CombatUnit → γ)
    (hproj : ∀ u t, proj { u with target_id := t } = proj u)
    (s : BattleState) (j : ℕ) :
    ((targetingPass s).get? j).map proj = (s.units.get? j).map proj :=
  foldl_updateAt_proj proj Prod.fst
    (fun m u => { u with target_id := some m.2 })
    (fun m x => hproj x (some m.2)) (newTargets s) s.units j

/-- Targeting leaves dead units untouched. -/
theorem targetingPass_dead (s : BattleState) (j : ℕ) (u : CombatUnit)
    (hj : s.units.get? j = some u) (hd : u.is_alive = false) :
    (targetingPass s).get? j = some u := by
  rw [targetingPass, foldl_updateAt_frame]
  · exact hj
  · intro m hm hmj
    obtain ⟨v, hv, hva, _⟩ := newTargets_spec s m hm
    rw [hmj, hj] at hv
    cases hv
    rw [hva] at hd
    exact Bool.noConfusion hd

/-- After targeting, a unit keeps its target or holds one freshly produced
by `find_best_target` on it, and nothing else changed. -/
theorem targetingPass_value (s : BattleState) (j : ℕ) (u : CombatUnit)
    (hj : s.units.get? j = some u) :
    ∃ y, (targetingPass s).get? j = some y ∧
      targetErase y = targetErase u ∧
      (y.target_id = u.target_id ∨
        ∃ tid, find_best_target u s = some tid ∧
          y.target_id = some tid) := by
  obtain ⟨y, hy, hcase⟩ := foldl_updateAt_value Prod.fst
    (fun m v => { v with target_id := some m.2 }) (newTargets s) s.units j u
    hj
  have hyt : (targetingPass s).get? j = some y := hy
  refine ⟨y, hyt, ?_, ?_⟩
  · have hpp := targetingPass_proj targetErase
      (fun v t => by simp [targetErase]) s j
    rw [hyt, hj] at hpp
    simpa using hpp
  · rcases hcase with rfl | ⟨m, hm, hmj, z, rfl⟩
    · exact Or.inl rfl
    · obtain ⟨u', hu', _, hfb⟩ := newTargets_spec s m hm
      rw [hmj, hj] at hu'
      cases hu'
      exact Or.inr ⟨m.2, hfb, rfl⟩

/-- A firing weapon sits at its recorded index with spent cooldown. -/
theorem firingWeapons_mem (dist : ℚ) (ws : List Weapon) :
    ∀ q ∈ firingWeapons dist ws, ws.get? q.1 = some q.2 ∧
      q.2.current_cooldown ≤ 0 := by
  intro q hq
  rw [firingWeapons] at hq
  obtain ⟨hqm, hpred⟩ := List.mem_filter.mp hq
  simp only [Bool.and_eq_true, Bool.not_eq_true', decide_eq_true_eq,
    decide_eq_false_iff_not] at hpred
  exact ⟨mem_enumL.mp hqm, hpred.2⟩

/-- Records produced by one `attackStep`: inherited, or a firing of this
very unit. -/
theorem attackStep_mem (F : FloatOps) (rngF : ℕ → ℚ)
    (units : List CombatUnit) (acc : List AttackRec × ℕ)
    (p : ℕ × CombatUnit) :
    ∀ rec ∈ (attackStep F rngF units acc p).1,
      rec ∈ acc.1 ∨
      (rec.attacker_idx = p.1 ∧ p.2.is_alive = true ∧
        p.2.target_id = some rec.target_id ∧
        ∃ wpn, p.2.weapons.get? rec.weapon_idx = some wpn ∧
          wpn.current_cooldown ≤ 0) := by
  intro rec hrec
  unfold attackStep at hrec
  by_cases ha : p.2.is_alive = true
  · cases ht : p.2.target_id with
    | none => simp only [ha, Bool.not_true, Bool.false_eq_true, if_false,
        ht] at hrec; exact Or.inl hrec
    | some tid =>
        simp only [ha, Bool.not_true, Bool.false_eq_true, if_false,
          ht] at hrec
        cases hfind : units.find? (fun u => u.id == tid) with
        | none => rw [hfind] at hrec; exact Or.inl hrec
        | some target =>
            rw [hfind] at hrec
            simp only [List.mem_append] at hrec
            rcases hrec with h | h
            · exact Or.inl h
            · right
              obtain ⟨q, hq, rfl⟩ := List.mem_map.mp h
              have hqq := mem_enumL.mp hq
              have hqf := List.get?_mem hqq
              obtain ⟨hw, hcc⟩ := firingWeapons_mem _ _ _ hqf
              exact ⟨rfl, ha, rfl, q.2.2, hw, hcc⟩
  · simp only [Bool.not_eq_true] at ha
    simp only [ha, Bool.not_false, if_true] at hrec
    exact Or.inl hrec

/-- Every attack record names a living attacker at its roster index, that
attacker's current target, and one of its ready weapons. -/
theorem attackPass_mem (F : FloatOps) (rngF : ℕ → ℚ)
    (units : List CombatUnit) :
    ∀ rec ∈ attackPass F rngF units,
      ∃ attacker, units.get? rec.attacker_idx = some attacker ∧
        attacker.is_alive = true ∧
        attacker.target_id = some rec.target_id ∧
        ∃ wpn, attacker.weapons.get? rec.weapon_idx = some wpn ∧
          wpn.current_cooldown ≤ 0 := by
  suffices h : ∀ (ms : List (ℕ × CombatUnit)) (acc : List AttackRec × ℕ),
      (∀ p ∈ ms, units.get? p.1 = some p.2) →
      (∀ rec ∈ acc.1,
        ∃ attacker, units.get? rec.attacker_idx = some attacker ∧
          attacker.is_alive = true ∧
          attacker.target_id = some rec.target_id ∧
          ∃ wpn, attacker.weapons.get? rec.weapon_idx = some wpn ∧
            wpn.current_cooldown ≤ 0) →
      ∀ rec ∈ (ms.foldl (attackStep F rngF units) acc).1,
        ∃ attacker, units.get? rec.attacker_idx = some attacker ∧
          attacker.is_alive = true ∧
          attacker.target_id = some rec.target_id ∧
          ∃ wpn, attacker.weapons.get? rec.weapon_idx = some wpn ∧
            wpn.current_cooldown ≤ 0 by
    intro rec hrec
    exact h (enumL units) ([], 0) (fun p hp => mem_enumL.mp hp)
      (by simp) rec hrec
  intro ms
  induction ms with
  | nil => intro acc _ hacc rec hrec; exact hacc rec hrec
  | cons p ms ih =>
      intro acc hms hacc rec hrec
      rw [List.foldl_cons] at hrec
      refine ih _ (fun p' hp' => hms p' (by simp [hp'])) ?_ rec hrec
      intro rec' hrec'
      rcases attackStep_mem F rngF units acc p rec' hrec' with h | hnew
      · exact hacc rec' h
      · obtain ⟨hidx, halive, htgt, wpn, hwpn, hcc⟩ := hnew
        exact ⟨p.2, by rw [hidx]; exact hms p (by simp), halive, htgt, wpn,
          hwpn, hcc⟩

/-- A value floored at zero is non-negative. -/
theorem floor0_nonneg (x : ℚ) : 0 ≤ if x < 0 then 0 else x := by
  split_ifs with h
  · exact le_refl 0
  · exact not_lt.mp h

/-- Mitigated damage is never negative. -/
theorem mitigate_nonneg (u : CombatUnit) (damage : ℚ) (dt : DamageType) :
    0 ≤ u.mitigate_damage damage dt :=
  floor0_nonneg _

/-- The damage update touches only hp, shields and the alive flag. -/
theorem damageUnit_fields (t : CombatUnit) (a : ℚ) (d : DamageType) :
    vitalsErase (damageUnit t a d).1 = vitalsErase t := by
  unfold damageUnit deathClamp applyLoss vitalsErase
  split_ifs <;> rfl

/-- The damage update skips dead units. -/
theorem damageUnit_dead (t : CombatUnit) (a : ℚ) (d : DamageType)
    (hd : t.is_alive = false) : (damageUnit t a d).1 = t := by
  unfold damageUnit
  simp [hd]

/-- `applyLoss` never raises hp when the loss is non-negative. -/
theorem applyLoss_hp_le (t : CombatUnit) (loss : ℚ) (dtype : DamageType)
    (hl : 0 ≤ loss) : (applyLoss t loss dtype).hp ≤ t.hp := by
  unfold applyLoss
  split_ifs with h1 h2 <;> simp <;> linarith

/-- `applyLoss` changes neither `max_hp` nor the alive flag. -/
theorem applyLoss_keeps (t : CombatUnit) (loss : ℚ) (dtype : DamageType) :
    (applyLoss t loss dtype).max_hp = t.max_hp ∧
      (applyLoss t loss dtype).is_alive = t.is_alive := by
  unfold applyLoss
  split_ifs <;> exact ⟨rfl, rfl⟩

/-- The damage update preserves the per-unit health invariant. -/
theorem damageUnit_InvU (t : CombatUnit) (a : ℚ) (d : DamageType)
    (h : InvU t) : InvU (damageUnit t a d).1 := by
  unfold damageUnit
  by_cases halive : t.is_alive = true
  · simp only [halive, if_true]
    set t1 := applyLoss t (t.mitigate_damage a d) d with ht1
    have hle : t1.hp ≤ t.hp :=
      applyLoss_hp_le t _ d (mitigate_nonneg t a d)
    have hmax : t1.max_hp = t.max_hp := (applyLoss_keeps t _ d).1
    have halive1 : t1.is_alive = t.is_alive := (applyLoss_keeps t _ d).2
    unfold deathClamp
    by_cases hhp : t1.hp ≤ 0
    · simp only [hhp, if_true]
      refine ⟨by simp, by simp [hmax]; linarith [h.2.2.2], by simp, ?_⟩
      simpa [hmax] using h.2.2.2
    · simp only [hhp, if_false]
      refine ⟨?_, by rw [hmax]; exact le_trans hle h.2.1, ?_, ?_⟩
      · rw [halive1, halive]
        simp [not_le.mp hhp]
      · rw [halive1, halive]
        intro hc
        exact Bool.noConfusion hc
      · rw [hmax]; exact h.2.2.2
  · simp only [Bool.not_eq_true] at halive
    simp [halive]
    exact h

/-- Pointwise projection preservation through one damage event. -/
theorem damageStep_proj {γ : Type _} (proj : CombatUnit → γ)
    (hproj : ∀ t a d, proj (damageUnit t a d).1 = proj t)
    (us : List CombatUnit) (ev : ℕ × ℚ × DamageType) (j : ℕ) :
    (((damageStep us ev).1).get? j).map proj = (us.get? j).map proj := by
  rw [damageStep, updateFirstD_fst]
  rcases updateFirst_get? (fun u => u.id == ev.1)
      (fun t => (damageUnit t ev.2.1 ev.2.2).1) us j with h | ⟨x, hx, _, h⟩
  · rw [h]
  · rw [h, hx]
    simp [hproj]

/-- Projection preservation through the whole damage pass. -/
theorem damagePass_proj {γ : Type _} (proj : CombatUnit → γ)
    (hproj : ∀ t a d, proj (damageUnit t a d).1 = proj t) :
    ∀ (events : List (ℕ × ℚ × DamageType)) (units : List CombatUnit)
      (j : ℕ),
      (((damagePass units events).1).get? j).map proj =
        (units.get? j).map proj := by
  intro events
  induction events with
  | nil => intro units j; rfl
  | cons ev evs ih =>
      intro units j
      have hstep : (damagePass units (ev :: evs)).1 =
          (damagePass (damageStep units ev).1 evs).1 := rfl
      rw [hstep, ih]
      exact damageStep_proj proj hproj units ev j

/-- Dead units are untouched by the damage pass. -/
theorem damagePass_dead :
    ∀ (events : List (ℕ × ℚ × DamageType)) (units : List CombatUnit)
      (j : ℕ) (u : CombatUnit),
      units.get? j = some u → u.is_alive = false →
      ((damagePass units events).1).get? j = some u := by
  intro events
  induction events with
  | nil => intro units j u hj _; exact hj
  | cons ev evs ih =>
      intro units j u hj hd
      have hstep : ((damageStep units ev).1).get? j = some u := by
        rw [damageStep, updateFirstD_fst]
        rcases updateFirst_get? (fun v => v.id == ev.1)
            (fun t => (damageUnit t ev.2.1 ev.2.2).1) units j with
          h | ⟨x, hx, _, h⟩
        · rw [h]; exact hj
        · rw [hx] at hj
          cases hj
          rw [h, damageUnit_dead _ _ _ hd]
      have heq : (damagePass units (ev :: evs)).1 =
          (damagePass (damageStep units ev).1 evs).1 := rfl
      rw [heq]
      exact ih _ _ _ hstep hd

/-- The damage pass preserves the roster health invariant. -/
theorem damagePass_InvRoster :
    ∀ (events : List (ℕ × ℚ × DamageType)) (units : List CombatUnit),
      InvRoster units → InvRoster ((damagePass units events).1) := by
  intro events
  induction events with
  | nil => intro units h; exact h
  | cons ev evs ih =>
      intro units h
      have heq : (damagePass units (ev :: evs)).1 =
          (damagePass (damageStep units ev).1 evs).1 := rfl
      rw [heq]
      refine ih _ ?_
      intro j u hj
      rw [damageStep, updateFirstD_fst] at hj
      rcases updateFirst_get? (fun v => v.id == ev.1)
          (fun t => (damageUnit t ev.2.1 ev.2.2).1) units j with
        hcase | ⟨x, hx, _, hcase⟩
      · rw [hcase] at hj
        exact h j u hj
      · rw [hcase] at hj
        cases hj
        exact damageUnit_InvU x _ _ (h j x hx)

/-- Resets only touch the weapon list. -/
theorem applyResets_proj {γ : Type _} (proj : CombatUnit → γ)
    (hproj : ∀ u ws, proj { u with weapons := ws } = proj u) :
    ∀ (fired : List (ℕ × ℕ)) (units : List CombatUnit) (j : ℕ),
      ((applyResets units fired).get? j).map proj =
        (units.get? j).map proj := by
  intro fired
  induction fired with
  | nil => intro units j; rfl
  | cons m ms ih =>
      intro units j
      rw [applyResets, ih, updateAt_get?]
      split_ifs with h
      · cases hl : units.get? j <;> simp [resetFn, hproj]
      · rfl

/-- Resets touch only the indices that fired. -/
theorem applyResets_frame :
    ∀ (fired : List (ℕ × ℕ)) (units : List CombatUnit) (j : ℕ),
      (∀ m ∈ fired, m.1 ≠ j) →
      (applyResets units fired).get? j = units.get? j := by
  intro fired
  induction fired with
  | nil => intro units j _; rfl
  | cons m ms ih =>
      intro units j h
      rw [applyResets, ih _ _ (fun m' hm' => h m' (by simp [hm']))]
      rw [updateAt_get?, if_neg (fun hj => h m (by simp) hj.symm)]

/-- One reset step, seen from an arbitrary unit/weapon position: the
cooldown duration is untouched and the remaining cooldown is either
untouched or freshly reset to the duration. -/
theorem resetStep_point (units : List CombatUnit) (m0 : ℕ × ℕ) (i k : ℕ)
    (u : CombatUnit) (w : Weapon) (hu : units.get? i = some u)
    (hw : u.weapons.get? k = some w) :
    ∃ u' w', (updateAt units m0.1 (resetFn m0)).get? i = some u' ∧
      u'.weapons.get? k = some w' ∧ w'.cooldown = w.cooldown ∧
      (w'.current_cooldown = w.current_cooldown ∨
        w'.current_cooldown = w'.cooldown) := by
  rw [updateAt_get?]
  by_cases hi : i = m0.1
  · rw [if_pos hi, hu]
    by_cases hk : k = m0.2
    · refine ⟨resetFn m0 u, { w with current_cooldown := w.cooldown },
        rfl, ?_, rfl, Or.inr rfl⟩
      simp only [resetFn]
      rw [updateAt_get?, if_pos hk, hw]
      rfl
    · refine ⟨resetFn m0 u, w, rfl, ?_, rfl, Or.inl rfl⟩
      simp only [resetFn]
      rw [updateAt_get?, if_neg hk]
      exact hw
  · rw [if_neg hi]
    exact ⟨u, w, hu, hw, rfl, Or.inl rfl⟩

/-- `applyResets`, seen from an arbitrary unit/weapon position. -/
theorem applyResets_point :
    ∀ (fired : List (ℕ × ℕ)) (units : List CombatUnit) (i k : ℕ)
      (u : CombatUnit) (w : Weapon), units.get? i = some u →
      u.weapons.get? k = some w →
      ∃ u' w', (applyResets units fired).get? i = some u' ∧
        u'.weapons.get? k = some w' ∧ w'.cooldown = w.cooldown ∧
        (w'.current_cooldown = w.current_cooldown ∨
          w'.current_cooldown = w'.cooldown) := by
  intro fired
  induction fired with
  | nil => intro units i k u w hu hw; exact ⟨u, w, hu, hw, rfl, Or.inl rfl⟩
  | cons m0 ms ih =>
      intro units i k u w hu hw
      obtain ⟨u1, w1, hu1, hw1, hcd1, hcc1⟩ :=
        resetStep_point units m0 i k u w hu hw
      obtain ⟨u2, w2, hu2, hw2, hcd2, hcc2⟩ := ih _ i k u1 w1 hu1 hw1
      rw [applyResets]
      refine ⟨u2, w2, hu2, hw2, by rw [hcd2, hcd1], ?_⟩
      rcases hcc2 with h2 | h2
      · rcases hcc1 with h1 | h1
        · exact Or.inl (by rw [h2, h1])
        · exact Or.inr (by rw [h2, h1]; exact hcd2.symm)
      · exact Or.inr h2

/-- A pair that fired ends the reset phase with its remaining cooldown
equal to its (unchanged) cooldown duration. -/
theorem applyResets_fired :
    ∀ (fired : List (ℕ × ℕ)) (units : List CombatUnit) (m : ℕ × ℕ)
      (u : CombatUnit) (w : Weapon), m ∈ fired →
      units.get? m.1 = some u → u.weapons.get? m.2 = some w →
      ∃ u' w', (applyResets units fired).get? m.1 = some u' ∧
        u'.weapons.get? m.2 = some w' ∧
        w'.current_cooldown = w.cooldown ∧ w'.cooldown = w.cooldown := by
  intro fired
  induction fired with
  | nil => intro units m u w hm; simp at hm
  | cons m0 ms ih =>
      intro units m u w hm hu hw
      rcases List.mem_cons.mp hm with rfl | hm'
      · -- the head reset applies to this very pair
        have hstep : ∃ u1 w1,
            (updateAt units m.1 (resetFn m)).get? m.1 = some u1 ∧
            u1.weapons.get? m.2 = some w1 ∧
            w1.current_cooldown = w.cooldown ∧ w1.cooldown = w.cooldown := by
          rw [updateAt_get?, if_pos rfl, hu]
          refine ⟨resetFn m u, { w with current_cooldown := w.cooldown },
            rfl, ?_, rfl, rfl⟩
          simp only [resetFn]
          rw [updateAt_get?, if_pos rfl, hw]
          rfl
        obtain ⟨u1, w1, hu1, hw1, hcc1, hcd1⟩ := hstep
        obtain ⟨u2, w2, hu2, hw2, hcd2, hcc2⟩ :=
          applyResets_point ms _ m.1 m.2 u1 w1 hu1 hw1
        rw [applyResets]
        refine ⟨u2, w2, hu2, hw2, ?_, by rw [hcd2, hcd1]⟩
        rcases hcc2 with h2 | h2
        · rw [h2, hcc1]
        · rw [h2, hcd2, hcd1]
      · -- the head reset is elsewhere (or a duplicate); recurse
        obtain ⟨u1, w1, hu1, hw1, hcd1, _⟩ :=
          resetStep_point units m0 m.1 m.2 u w hu hw
        obtain ⟨u2, w2, hu2, hw2, hcc2, hcd2⟩ := ih _ m u1 w1 hm' hu1 hw1
        rw [applyResets]
        exact ⟨u2, w2, hu2, hw2, by rw [hcc2, hcd1], by rw [hcd2, hcd1]⟩

/-- Pointwise description of the cooldown pass. -/
theorem cooldownPass_get? (units : List CombatUnit) (j : ℕ) :
    (cooldownPass units).get? j = (units.get? j).map (fun u =>
      { u with weapons := u.weapons.map (fun w =>
          if w.current_cooldown > 0 then
            { w with current_cooldown := w.current_cooldown - 1 }
          else w) }) := by
  rw [cooldownPass, List.get?_map]

/-- One reset step leaves weapons at other coordinates untouched. -/
theorem resetStep_frame (units : List CombatUnit) (m0 : ℕ × ℕ) (i k : ℕ)
    (u : CombatUnit) (w : Weapon) (hu : units.get? i = some u)
    (hw : u.weapons.get? k = some w) (hne : ¬(m0.1 = i ∧ m0.2 = k)) :
    ∃ u', (updateAt units m0.1 (resetFn m0)).get? i = some u' ∧
      u'.weapons.get? k = some w := by
  rw [updateAt_get?]
  by_cases hi : i = m0.1
  · rw [if_pos hi, hu]
    refine ⟨resetFn m0 u, rfl, ?_⟩
    simp only [resetFn]
    rw [updateAt_get?, if_neg (fun hk => hne ⟨hi.symm, hk.symm⟩)]
    exact hw
  · rw [if_neg hi]
    exact ⟨u, hu, hw⟩

/-- Weapons that did not fire keep their exact state through the resets. -/
theorem applyResets_not_fired :
    ∀ (fired : List (ℕ × ℕ)) (units : List CombatUnit) (j k : ℕ)
      (u : CombatUnit) (w : Weapon), units.get? j = some u →
      u.weapons.get? k = some w →
      (∀ m ∈ fired, ¬(m.1 = j ∧ m.2 = k)) →
      ∃ u', (applyResets units fired).get? j = some u' ∧
        u'.weapons.get? k = some w := by
  intro fired
  induction fired with
  | nil => intro units j k u w hu hw _; exact ⟨u, hu, hw⟩
  | cons m0 ms ih =>
      intro units j k u w hu hw hne
      obtain ⟨u1, hu1, hw1⟩ := resetStep_frame units m0 j k u w hu hw
        (hne m0 (by simp))
      rw [applyResets]
      exact ih _ j k u1 w hu1 hw1 (fun m hm => hne m (by simp [hm]))

/-- The damage update never changes the weapon list. -/
theorem damageUnit_weapons (t : CombatUnit) (a : ℚ) (d : DamageType) :
    (damageUnit t a d).1.weapons = t.weapons := by
  have h := congrArg CombatUnit.weapons (damageUnit_fields t a d)
  simpa [vitalsErase] using h

/-- The damage pass keeps each roster slot's weapon list. -/
theorem damagePass_weapons (events : List (ℕ × ℚ × DamageType))
    (units : List CombatUnit) (j : ℕ) (u3 : CombatUnit)
    (hu3 : units.get? j = some u3) :
    ∃ u4, ((damagePass units events).1).get? j = some u4 ∧
      u4.weapons = u3.weapons := by
  have h := damagePass_proj (fun v => v.weapons)
    (fun t a d => damageUnit_weapons t a d) events units j
  rw [hu3] at h
  cases hd : ((damagePass units events).1).get? j with
  | none => rw [hd] at h; exact Option.noConfusion h
  | some u4 =>
      rw [hd] at h
      simp only [Option.map_some', Option.some.injEq] at h
      exact ⟨u4, rfl, h⟩

/-- The cooldown pass, seen from one weapon. -/
theorem cooldownPass_weapon (units : List CombatUnit) (j k : ℕ)
    (u4 : CombatUnit) (w : Weapon) (hu : units.get? j = some u4)
    (hw : u4.weapons.get? k = some w) :
    ∃ u', (cooldownPass units).get? j = some u' ∧
      u'.weapons.get? k = some (if w.current_cooldown > 0 then
        { w with current_cooldown := w.current_cooldown - 1 } else w) := by
  rw [cooldownPass_get?, hu]
  refine ⟨_, rfl, ?_⟩
  show (u4.weapons.map _).get? k = _
  rw [List.get?_map, hw]
  rfl

/-- The cooldown bookkeeping of one tick, from the post-targeting roster
`units2` through resets, damage and the cooldown pass. -/
theorem cooldown_pipeline (F : FloatOps) (rngF : ℕ → ℚ)
    (units2 : List CombatUnit) :
    (∀ rec ∈ attackPass F rngF units2, ∀ u wpn,
      units2.get? rec.attacker_idx = some u →
      u.weapons.get? rec.weapon_idx = some wpn →
      ∃ u' wpn',
        (cooldownPass (damagePass
            (applyResets units2 ((attackPass F rngF units2).map
              (fun r => (r.attacker_idx, r.weapon_idx))))
            ((attackPass F rngF units2).map
              (fun r => (r.target_id, r.amount, r.dtype)))).1).get?
          rec.attacker_idx = some u' ∧
        u'.weapons.get? rec.weapon_idx = some wpn' ∧
        wpn'.cooldown = wpn.cooldown ∧
        wpn'.current_cooldown =
          (if wpn.cooldown > 0 then wpn.cooldown - 1 else wpn.cooldown)) ∧
    (∀ j k u wpn, units2.get? j = some u → u.weapons.get? k = some wpn →
      (∀ rec ∈ attackPass F rngF units2,
        ¬(rec.attacker_idx = j ∧ rec.weapon_idx = k)) →
      ∃ u' wpn',
        (cooldownPass (damagePass
            (applyResets units2 ((attackPass F rngF units2).map
              (fun r => (r.attacker_idx, r.weapon_idx))))
            ((attackPass F rngF units2).map
              (fun r => (r.target_id, r.amount, r.dtype)))).1).get?
          j = some u' ∧
        u'.weapons.get? k = some wpn' ∧
        wpn'.cooldown = wpn.cooldown ∧
        wpn'.current_cooldown =
          (if wpn.current_cooldown > 0 then wpn.current_cooldown - 1
           else wpn.current_cooldown)) := by
  constructor
  · intro rec hrec u wpn hu hw
    obtain ⟨u3, w3, hu3, hw3, hcc3, hcd3⟩ := applyResets_fired
      ((attackPass F rngF units2).map (fun r => (r.attacker_idx, r.weapon_idx)))
      units2 (rec.attacker_idx, rec.weapon_idx) u wpn
      (List.mem_map.mpr ⟨rec, hrec, rfl⟩) hu hw
    obtain ⟨u4, hu4, hw4⟩ := damagePass_weapons
      ((attackPass F rngF units2).map (fun r => (r.target_id, r.amount, r.dtype)))
      _ rec.attacker_idx u3 hu3
    have hw4k : u4.weapons.get? rec.weapon_idx = some w3 := by
      rw [hw4]; exact hw3
    obtain ⟨u', hu', hwk⟩ := cooldownPass_weapon _ rec.attacker_idx
      rec.weapon_idx u4 w3 hu4 hw4k
    refine ⟨u', _, hu', hwk, ?_, ?_⟩
    · split_ifs <;> simpa using hcd3
    · by_cases hpos : wpn.cooldown > 0
      · simp [hcc3, hcd3, hpos]
      · simp [hcc3, hcd3, hpos]
  · intro j k u wpn hu hw hnf
    obtain ⟨u3, hu3, hw3⟩ := applyResets_not_fired
      ((attackPass F rngF units2).map (fun r => (r.attacker_idx, r.weapon_idx)))
      units2 j k u wpn hu hw
      (by
        intro m hm
        obtain ⟨rec, hrec, rfl⟩ := List.mem_map.mp hm
        exact hnf rec hrec)
    obtain ⟨u4, hu4, hw4⟩ := damagePass_weapons
      ((attackPass F rngF units2).map (fun r => (r.target_id, r.amount, r.dtype)))
      _ j u3 hu3
    have hw4k : u4.weapons.get? k = some wpn := by
      rw [hw4]; exact hw3
    obtain ⟨u', hu', hwk⟩ := cooldownPass_weapon _ j k u4 wpn hu4 hw4k
    refine ⟨u', _, hu', hwk, ?_, ?_⟩
    · split_ifs <;> rfl
    · split_ifs <;> rfl

/-- **C4 (amended)**: a weapon that fires during `step()` has its cooldown
reset to its full value between passes 2 and 3, but the cooldown pass of the
same tick decrements it again, so at the end of the call its remaining
cooldown equals the full value minus one tick unit when the full value is
positive (and the full value unchanged otherwise); every weapon that did
not just reset has a positive remaining cooldown decremented by one tick
and a non-positive one left alone. -/
theorem cooldown_spec (F : FloatOps) (rngF : ℕ → ℚ) (s : BattleState) :
    (∀ rec ∈ (s.stepCore F rngF).recs, ∀ u wpn,
      s.units.get? rec.attacker_idx = some u →
      u.weapons.get? rec.weapon_idx = some wpn →
      ∃ u' wpn',
        (s.stepCore F rngF).state.units.get? rec.attacker_idx = some u' ∧
        u'.weapons.get? rec.weapon_idx = some wpn' ∧
        wpn'.cooldown = wpn.cooldown ∧
        wpn'.current_cooldown =
          (if wpn.cooldown > 0 then wpn.cooldown - 1 else wpn.cooldown)) ∧
    (∀ j k u wpn, s.units.get? j = some u → u.weapons.get? k = some wpn →
      (∀ rec ∈ (s.stepCore F rngF).recs,
        ¬(rec.attacker_idx = j ∧ rec.weapon_idx = k)) →
      ∃ u' wpn',
        (s.stepCore F rngF).state.units.get? j = some u' ∧
        u'.weapons.get? k = some wpn' ∧
        wpn'.cooldown = wpn.cooldown ∧
        wpn'.current_cooldown =
          (if wpn.current_cooldown > 0 then wpn.current_cooldown - 1
           else wpn.current_cooldown)) := by
  have hweq : ∀ j, ((targetingPass { s with
      turn := s.turn + 1
      time_elapsed := s.time_elapsed + 1
      units := movementPass F s.units }).get? j).map (fun v => v.weapons) =
      (s.units.get? j).map (fun v => v.weapons) := by
    intro j
    rw [targetingPass_proj (fun v => v.weapons) (fun v t => rfl)]
    exact movementPass_proj (fun v => v.weapons) (fun v p => rfl) F s.units j
  have hmain := cooldown_pipeline F rngF (targetingPass { s with
    turn := s.turn + 1
    time_elapsed := s.time_elapsed + 1
    units := movementPass F s.units })
  constructor
  · intro rec hrec u wpn hu hw
    have hrec' : rec ∈ attackPass F rngF (targetingPass { s with
        turn := s.turn + 1
        time_elapsed := s.time_elapsed + 1
        units := movementPass F s.units }) := hrec
    have hq := hweq rec.attacker_idx
    rw [hu] at hq
    cases hu2 : (targetingPass { s with
        turn := s.turn + 1
        time_elapsed := s.time_elapsed + 1
        units := movementPass F s.units }).get? rec.attacker_idx with
    | none => rw [hu2] at hq; exact Option.noConfusion hq
    | some u2 =>
        rw [hu2] at hq
        simp only [Option.map_some', Option.some.injEq] at hq
        obtain ⟨u', wpn', h1, h2, h3, h4⟩ := hmain.1 rec hrec' u2 wpn hu2
          (by rw [hq]; exact hw)
        exact ⟨u', wpn', h1, h2, h3, h4⟩
  · intro j k u wpn hu hw hnf
    have hq := hweq j
    rw [hu] at hq
    cases hu2 : (targetingPass { s with
        turn := s.turn + 1
        time_elapsed := s.time_elapsed + 1
        units := movementPass F s.units }).get? j with
    | none => rw [hu2] at hq; exact Option.noConfusion hq
    | some u2 =>
        rw [hu2] at hq
        simp only [Option.map_some', Option.some.injEq] at hq
        obtain ⟨u', wpn', h1, h2, h3, h4⟩ := hmain.2 j k u2 wpn hu2
          (by rw [hq]; exact hw) (fun rec hrec => hnf rec hrec)
        exact ⟨u', wpn', h1, h2, h3, h4⟩

/-- **C4 counterexample**: a concrete battle in which the only weapon
(full cooldown 3, ready) fires during `step()`, yet at the end of that call
its remaining cooldown is 2, not the full value 3. -/
theorem cooldown_reset_cx :
    (c4Engine.stepFull F0 rng1).2.2 =
      [{ attacker_idx := 0, weapon_idx := 0, target_id := 1, amount := 10,
         dtype := DamageType.Kinetic }] ∧
    ((c4Engine.stepFull F0 rng1).1.state.units.get? 0).map
      (fun u => u.weapons.map (fun w => (w.current_cooldown, w.cooldown))) =
      some [(2, 3)] ∧
    (2 : ℚ) ≠ 3 := by
  refine ⟨?_, ?_, by norm_num⟩ <;>
    norm_num [BattleEngine.stepFull, BattleState.stepCore, movementPass,
      moveList, hashGet, targetingPass, newTargets, needsTarget,
      find_best_target, fbtLoop, validTarget, distSq, attackPass, attackStep,
      firingWeapons, Weapon.get_damage_type, applyResets, resetFn, updateAt,
      damagePass, damageStep, updateFirstD, damageUnit, applyLoss,
      deathClamp, CombatUnit.mitigate_damage, cooldownPass, continueFlag,
      enumL, enumFrom, F0, rng1, c4Engine, c4X, c4Y, mkUnit, mkWeapon,
      CombatUnit.new, BattleEngine.new, BattleState.new,
      BattleEngine.add_unit, BattleState.add_unit, List.find?,
      beq_eq_decide]

/-- Witness for the hypotheses of `cooldown_spec`. -/
theorem cooldown_spec_witness :
    ({ attacker_idx := 0, weapon_idx := 0, target_id := 1, amount := 10,
       dtype := DamageType.Kinetic } : AttackRec) ∈
      (c4Engine.state.stepCore F0 rng1).recs ∧
    ∃ u' wpn',
      (c4Engine.state.stepCore F0 rng1).state.units.get? 0 = some u' ∧
      u'.weapons.get? 0 = some wpn' ∧
      wpn'.cooldown = (mkWeapon 100 10 3 0).cooldown ∧
      wpn'.current_cooldown =
        (if (mkWeapon 100 10 3 0).cooldown > 0 then
          (mkWeapon 100 10 3 0).cooldown - 1
         else (mkWeapon 100 10 3 0).cooldown) := by
  have hmem : ({ attacker_idx := 0
                 weapon_idx := 0
                 target_id := 1
                 amount := 10
                 dtype := DamageType.Kinetic } : AttackRec) ∈
      (c4Engine.state.stepCore F0 rng1).recs := by
    norm_num [BattleState.stepCore, movementPass, moveList, hashGet,
      targetingPass, newTargets, needsTarget, find_best_target, fbtLoop,
      validTarget, distSq, attackPass, attackStep, firingWeapons,
      Weapon.get_damage_type, enumL, enumFrom, F0, rng1, c4Engine, c4X, c4Y,
      mkUnit, mkWeapon, CombatUnit.new, BattleEngine.new, BattleState.new,
      BattleEngine.add_unit, BattleState.add_unit, List.find?, updateAt,
      beq_eq_decide]
  refine ⟨hmem, ?_⟩
  have h := (cooldown_spec F0 rng1 c4Engine.state).1 _ hmem c4X
    (mkWeapon 100 10 3 0)
    (by norm_num [c4Engine, BattleEngine.new, BattleEngine.add_unit,
      BattleState.add_unit, BattleState.new])
    (by norm_num [c4X, mkUnit, CombatUnit.new])
  exact h

set_option maxHeartbeats 4000000 in
/-- **C7**: `step()` returns true iff, after its five passes complete, the
set of distinct faction indices among currently-alive units has size
greater than one; in particular, on the tick in which the last unit of one
of two factions dies, `step()` returns false. -/
theorem step_continuation (F : FloatOps) (rngF : ℕ → ℚ) (e : BattleEngine) :
    ((e.step F rngF).2 = true ↔
      1 < (((e.step F rngF).1.state.units.filter (fun u => u.is_alive)).map
        (fun u => u.faction_idx)).toFinset.card) ∧
    (c7Engine.step F0 rng1).2 = false := by
  constructor
  · have hflag : (e.step F rngF).2 = (e.state.stepCore F rngF).cont := rfl
    have hunits : (e.step F rngF).1.state.units =
        (e.state.stepCore F rngF).state.units := rfl
    have hcc : (e.state.stepCore F rngF).cont =
        continueFlag ((e.state.stepCore F rngF).state.units) := rfl
    rw [hflag, hunits, hcc, continueFlag]
    exact decide_eq_true_iff
  · have hflag : (c7Engine.step F0 rng1).2 =
        continueFlag ((c7Engine.state.stepCore F0 rng1).state.units) := rfl
    rw [hflag]
    norm_num [BattleState.stepCore, movementPass, moveList, hashGet,
      targetingPass, newTargets, needsTarget, find_best_target, fbtLoop,
      validTarget, distSq, attackPass, attackStep, firingWeapons,
      Weapon.get_damage_type, applyResets, resetFn, updateAt, damagePass,
      damageStep, updateFirstD, damageUnit, applyLoss, deathClamp,
      CombatUnit.mitigate_damage, cooldownPass, continueFlag, enumL,
      enumFrom, F0, rng1, c7Engine, c7X, c7Y, mkUnit, mkWeapon,
      CombatUnit.new, BattleEngine.new, BattleState.new,
      BattleEngine.add_unit, BattleState.add_unit, List.find?,
      beq_eq_decide]

/-- **C9**: a unit that is dead at the start of a call to `step()` keeps its
hp, shields, position, target id and alive flag; every field other than its
weapon list is unchanged (the cooldown pass still ticks its weapons). -/
theorem dead_unit_frame (F : FloatOps) (rngF : ℕ → ℚ) (e : BattleEngine)
    (j : ℕ) (u : CombatUnit) (hj : e.state.units.get? j = some u)
    (hd : u.is_alive = false) :
    ∃ u', (e.step F rngF).1.state.units.get? j = some u' ∧
      u' = { u with weapons := u'.weapons } := by
  have h1 : (movementPass F e.state.units).get? j = some u :=
    movementPass_dead F e.state.units j u hj hd
  have h2 : (targetingPass { e.state with
      turn := e.state.turn + 1
      time_elapsed := e.state.time_elapsed + 1
      units := movementPass F e.state.units }).get? j = some u :=
    targetingPass_dead _ j u h1 hd
  have h3 : (applyResets (targetingPass { e.state with
      turn := e.state.turn + 1
      time_elapsed := e.state.time_elapsed + 1
      units := movementPass F e.state.units })
      ((attackPass F rngF (targetingPass { e.state with
        turn := e.state.turn + 1
        time_elapsed := e.state.time_elapsed + 1
        units := movementPass F e.state.units })).map
        (fun r => (r.attacker_idx, r.weapon_idx)))).get? j = some u := by
    rw [applyResets_frame]
    · exact h2
    · intro m hm hmj
      obtain ⟨rec, hrec, rfl⟩ := List.mem_map.mp hm
      obtain ⟨attacker, hatt, halive, _⟩ := attackPass_mem F rngF _ rec hrec
      have hmj' : rec.attacker_idx = j := hmj
      rw [hmj', h2] at hatt
      cases hatt
      rw [halive] at hd
      exact Bool.noConfusion hd
  have h4 := damagePass_dead
    ((attackPass F rngF (targetingPass { e.state with
      turn := e.state.turn + 1
      time_elapsed := e.state.time_elapsed + 1
      units := movementPass F e.state.units })).map
      (fun r => (r.target_id, r.amount, r.dtype))) _ j u h3 hd
  have h5 := cooldownPass_get? (damagePass (applyResets (targetingPass
    { e.state with
      turn := e.state.turn + 1
      time_elapsed := e.state.time_elapsed + 1
      units := movementPass F e.state.units })
    ((attackPass F rngF (targetingPass { e.state with
      turn := e.state.turn + 1
      time_elapsed := e.state.time_elapsed + 1
      units := movementPass F e.state.units })).map
      (fun r => (r.attacker_idx, r.weapon_idx))))
    ((attackPass F rngF (targetingPass { e.state with
      turn := e.state.turn + 1
      time_elapsed := e.state.time_elapsed + 1
      units := movementPass F e.state.units })).map
      (fun r => (r.target_id, r.amount, r.dtype)))).1 j
  rw [h4] at h5
  exact ⟨_, h5, rfl⟩

/-- Targeting depends on the state only through its roster. -/
theorem find_best_target_congr (a : CombatUnit) (s1 s2 : BattleState)
    (h : s1.units = s2.units) :
    find_best_target a s1 = find_best_target a s2 := by
  rw [find_best_target, find_best_target, h]

/-- The retarget list depends on the state only through its roster. -/
theorem newTargets_congr (s1 s2 : BattleState) (h : s1.units = s2.units) :
    newTargets s1 = newTargets s2 := by
  rw [newTargets, newTargets, h]
  congr 1
  funext p
  simp only [find_best_target_congr p.2 s1 s2 h]

/-- The targeting pass depends on the state only through its roster. -/
theorem targetingPass_congr (s1 s2 : BattleState) (h : s1.units = s2.units) :
    targetingPass s1 = targetingPass s2 := by
  rw [targetingPass, targetingPass, newTargets_congr s1 s2 h, h]

set_option maxHeartbeats 4000000 in
/-- **C10**: the observability attachments never influence simulation
outcomes: two engines whose battle states agree on roster, turn counter and
elapsed time — regardless of attached event log, correlation context or
trace id — produce, under the same float interpretation and random-damage
sequence, identical resulting rosters, turn counters, elapsed times and
return values. -/
theorem observability_noninterference (F : FloatOps) (rngF : ℕ → ℚ)
    (e1 e2 : BattleEngine)
    (hu : e1.state.units = e2.state.units)
    (ht : e1.state.turn = e2.state.turn)
    (hte : e1.state.time_elapsed = e2.state.time_elapsed) :
    (e1.step F rngF).1.state.units = (e2.step F rngF).1.state.units ∧
    (e1.step F rngF).1.state.turn = (e2.step F rngF).1.state.turn ∧
    (e1.step F rngF).1.state.time_elapsed =
      (e2.step F rngF).1.state.time_elapsed ∧
    (e1.step F rngF).2 = (e2.step F rngF).2 := by
  have h2 : targetingPass { e1.state with
      turn := e1.state.turn + 1
      time_elapsed := e1.state.time_elapsed + 1
      units := movementPass F e1.state.units } = targetingPass
      { e2.state with
        turn := e2.state.turn + 1
        time_elapsed := e2.state.time_elapsed + 1
        units := movementPass F e2.state.units } := by
    apply targetingPass_congr
    show movementPass F e1.state.units = movementPass F e2.state.units
    rw [hu]
  have hcu : (e1.state.stepCore F rngF).state.units =
      (e2.state.stepCore F rngF).state.units := by
    show cooldownPass (damagePass (applyResets (targetingPass
      { e1.state with
        turn := e1.state.turn + 1
        time_elapsed := e1.state.time_elapsed + 1
        units := movementPass F e1.state.units }) _) _).1 =
      cooldownPass (damagePass (applyResets (targetingPass
      { e2.state with
        turn := e2.state.turn + 1
        time_elapsed := e2.state.time_elapsed + 1
        units := movementPass F e2.state.units }) _) _).1
    rw [h2]
  refine ⟨?_, ?_, ?_, ?_⟩
  · have g1 : (e1.step F rngF).1.state.units =
        (e1.state.stepCore F rngF).state.units := rfl
    have g2 : (e2.step F rngF).1.state.units =
        (e2.state.stepCore F rngF).state.units := rfl
    rw [g1, g2, hcu]
  · show e1.state.turn + 1 = e2.state.turn + 1
    rw [ht]
  · show e1.state.time_elapsed + 1 = e2.state.time_elapsed + 1
    rw [hte]
  · have g1 : (e1.step F rngF).2 =
        continueFlag ((e1.state.stepCore F rngF).state.units) := rfl
    have g2 : (e2.step F rngF).2 =
        continueFlag ((e2.state.stepCore F rngF).state.units) := rfl
    rw [g1, g2, hcu]

/-- Witness for the hypotheses of `observability_noninterference`. -/
theorem observability_noninterference_witness :
    e10a.state.units = e10b.state.units ∧
    (e10a.step F0 rng1).1.state.units = (e10b.step F0 rng1).1.state.units ∧
    (e10a.step F0 rng1).2 = (e10b.step F0 rng1).2 := by
  refine ⟨rfl, ?_, ?_⟩
  · exact (observability_noninterference F0 rng1 e10a e10b rfl rfl rfl).1
  · exact (observability_noninterference F0 rng1 e10a e10b rfl rfl rfl).2.2.2

/-- Witness for the hypotheses of `dead_unit_frame`. -/
theorem dead_unit_frame_witness :
    c9Engine.state.units.get? 0 = some c9Dead ∧
    c9Dead.is_alive = false ∧
    ∃ u', (c9Engine.step F0 rng1).1.state.units.get? 0 = some u' ∧
      u' = { c9Dead with weapons := u'.weapons } :=
  ⟨rfl, rfl, dead_unit_frame F0 rng1 c9Engine 0 c9Dead rfl rfl⟩

/-- The engine-level step roster is the state-level one. -/
theorem step_units (F : FloatOps) (rngF : ℕ → ℚ) (e : BattleEngine) :
    (e.step F rngF).1.state.units = (e.state.stepCore F rngF).state.units :=
  rfl

/-- The roster after one tick, spelled as the five-pass pipeline. -/
theorem stepCore_units (F : FloatOps) (rngF : ℕ → ℚ) (s : BattleState) :
    (s.stepCore F rngF).state.units =
      cooldownPass (damagePass (applyResets (targetingPass
        { s with
          turn := s.turn + 1
          time_elapsed := s.time_elapsed + 1
          units := movementPass F s.units })
        ((attackPass F rngF (targetingPass { s with
          turn := s.turn + 1
          time_elapsed := s.time_elapsed + 1
          units := movementPass F s.units })).map
          (fun r => (r.attacker_idx, r.weapon_idx))))
        ((attackPass F rngF (targetingPass { s with
          turn := s.turn + 1
          time_elapsed := s.time_elapsed + 1
          units := movementPass F s.units })).map
          (fun r => (r.target_id, r.amount, r.dtype)))).1 := rfl

/-- Transport of the roster health invariant along pointwise equality of
the (hp, max_hp, is_alive) footprint. -/
theorem InvRoster_of_proj (us vs : List CombatUnit)
    (h : ∀ j, (vs.get? j).map (fun u => (u.hp, u.max_hp, u.is_alive)) =
      (us.get? j).map (fun u => (u.hp, u.max_hp, u.is_alive)))
    (hu : InvRoster us) : InvRoster vs := by
  intro j v hj
  have hh := h j
  rw [hj] at hh
  cases hus : us.get? j with
  | none => rw [hus] at hh; exact absurd hh (by simp)
  | some u =>
      rw [hus] at hh
      simp only [Option.map_some', Option.some_inj, Prod.mk.injEq] at hh
      obtain ⟨h1, h2, h3⟩ := hh
      have hI := hu j u hus
      unfold InvU at hI ⊢
      rw [h1, h2, h3]
      exact hI

/-- The cooldown pass touches only the weapon list. -/
theorem cooldownPass_proj {γ : Type _} (proj : CombatUnit → γ)
    (hproj : ∀ u ws, proj { u with weapons := ws } = proj u)
    (units : List CombatUnit) (j : ℕ) :
    ((cooldownPass units).get? j).map proj = (units.get? j).map proj := by
  rw [cooldownPass_get?]
  cases units.get? j <;> simp [hproj]

/-- `updateFirst` through a projection its update preserves. -/
theorem updateFirst_proj {γ : Type _} (proj : α → γ) (p : α → Bool)
    (f : α → α) (hproj : ∀ x, proj (f x) = proj x) (l : List α) (j : ℕ) :
    ((updateFirst p f l).get? j).map proj = (l.get? j).map proj := by
  rcases updateFirst_get? p f l j with hc | ⟨x, hx, _, hc⟩
  · rw [hc]
  · rw [hc, hx]
    simp [hproj]

/-- One tick preserves the roster health invariant. -/
theorem stepCore_InvRoster (F : FloatOps) (rngF : ℕ → ℚ) (s : BattleState)
    (h : InvRoster s.units) :
    InvRoster ((s.stepCore F rngF).state.units) := by
  rw [stepCore_units]
  apply InvRoster_of_proj _ _
    (fun j => cooldownPass_proj (fun u => (u.hp, u.max_hp, u.is_alive))
      (fun u ws => rfl) _ j)
  apply damagePass_InvRoster
  apply InvRoster_of_proj _ _
    (fun j => applyResets_proj (fun u => (u.hp, u.max_hp, u.is_alive))
      (fun u ws => rfl) _ _ j)
  apply InvRoster_of_proj _ _
    (fun j => targetingPass_proj (fun u => (u.hp, u.max_hp, u.is_alive))
      (fun u t => rfl) _ j)
  show InvRoster (movementPass F s.units)
  apply InvRoster_of_proj _ _
    (fun j => movementPass_proj (fun u => (u.hp, u.max_hp, u.is_alive))
      (fun u p => rfl) F s.units j)
  exact h

/-- Every engine reachable through the public interface under the C6
add-precondition keeps every roster slot healthy. -/
theorem driven_P6_InvRoster (e : BattleEngine) (h : Driven P6 e) :
    InvRoster e.state.units := by
  induction h with
  | new w0 h0 =>
      intro j u hj
      simp [BattleEngine.new, BattleState.new] at hj
  | @add e0 u0 hD hP ih =>
      intro j v hj
      have hju : (e0.state.units ++ [u0]).get? j = some v := hj
      by_cases hlt : j < e0.state.units.length
      · rw [List.get?_append hlt] at hju
        exact ih j v hju
      · rw [List.get?_append_right (not_lt.mp hlt)] at hju
        cases hk : j - e0.state.units.length with
        | zero =>
            rw [hk] at hju
            cases hju
            obtain ⟨hp1, hp2, hp3, _⟩ := hP
            refine ⟨⟨fun _ => hp1, fun _ => hp3⟩, hp2, ?_,
              lt_of_lt_of_le hp1 hp2⟩
            rw [hp3]
            intro hc
            exact Bool.noConfusion hc
        | succ k =>
            rw [hk] at hju
            exact absurd hju (by simp)
  | @cover e0 uid cv hD ih =>
      refine InvRoster_of_proj _ _ (fun j => ?_) ih
      have hcv : (e0.set_unit_cover uid cv).state.units =
          updateFirst (fun u => u.id == uid)
            (fun u => { u with cover :=
              match cv with
              | 1 => CoverType.Light
              | 2 => CoverType.Heavy
              | 3 => CoverType.Fortified
              | _ => CoverType.NoCover }) e0.state.units := rfl
      rw [hcv]
      clear hcv
      exact updateFirst_proj (fun u => (u.hp, u.max_hp, u.is_alive)) _
        (fun u => { u with cover :=
          match cv with
          | 1 => CoverType.Light
          | 2 => CoverType.Heavy
          | 3 => CoverType.Fortified
          | _ => CoverType.NoCover })
        (fun x => rfl) e0.state.units j
  | log l hD ih => exact ih
  | ctx c hD ih => exact ih
  | @step e0 F rngF hD ih =>
      have hs : (e0.step F rngF).1.state.units =
          (e0.state.stepCore F rngF).state.units := step_units F rngF e0
      rw [hs]
      exact stepCore_InvRoster F rngF e0.state ih

/-- **C6**: in a battle driven only through the public interface, all of
whose units enter with `0 < hp ≤ max_hp`, alive, and a fresh id, every
roster slot at every reachable engine (in particular after every call to
`step()`) has `is_alive` true iff `hp > 0`, alive units have
`0 < hp ≤ max_hp`, and dead units have `hp = 0`. -/
theorem health_invariant (e : BattleEngine) (h : Driven P6 e)
    (j : ℕ) (u : CombatUnit) (hj : e.state.units.get? j = some u) :
    (u.is_alive = true ↔ 0 < u.hp) ∧
    (u.is_alive = true → 0 < u.hp ∧ u.hp ≤ u.max_hp) ∧
    (u.is_alive = false → u.hp = 0) := by
  have hI := driven_P6_InvRoster e h j u hj
  exact ⟨hI.1, fun ha => ⟨hI.1.mp ha, hI.2.1⟩, hI.2.2.1⟩

/-- Witness for the hypotheses of `health_invariant`. -/
theorem health_invariant_witness :
    Driven P6 (c4Engine.step F0 rng1).1 ∧
    (c4Engine.step F0 rng1).1.state.units.get? 1 = some c6wUnit ∧
    ((c6wUnit.is_alive = true ↔ 0 < c6wUnit.hp) ∧
     (c6wUnit.is_alive = true →
       0 < c6wUnit.hp ∧ c6wUnit.hp ≤ c6wUnit.max_hp) ∧
     (c6wUnit.is_alive = false → c6wUnit.hp = 0)) := by
  have hD : Driven P6 (c4Engine.step F0 rng1).1 := by
    refine Driven.step F0 rng1 ?_
    refine Driven.add (Driven.add (Driven.new 500 500) ?_) ?_
    · norm_num [P6, c4X, mkUnit, CombatUnit.new, BattleEngine.new,
        BattleState.new]
    · norm_num [P6, c4X, c4Y, mkUnit, CombatUnit.new, BattleEngine.new,
        BattleState.new, BattleEngine.add_unit, BattleState.add_unit]
  have hj : (c4Engine.step F0 rng1).1.state.units.get? 1 = some c6wUnit := by
    have hs : (c4Engine.step F0 rng1).1.state.units =
        (c4Engine.state.stepCore F0 rng1).state.units :=
      step_units F0 rng1 c4Engine
    rw [hs]
    norm_num [BattleState.stepCore, movementPass, moveList, hashGet,
      targetingPass, newTargets, needsTarget, find_best_target, fbtLoop,
      validTarget, distSq, attackPass, attackStep, firingWeapons,
      Weapon.get_damage_type, applyResets, resetFn, updateAt, damagePass,
      damageStep, updateFirstD, damageUnit, applyLoss, deathClamp,
      CombatUnit.mitigate_damage, cooldownPass, enumL, enumFrom, F0, rng1,
      c4Engine, c4X, c4Y, c6wUnit, mkUnit, mkWeapon, CombatUnit.new,
      BattleEngine.new, BattleState.new, BattleEngine.add_unit,
      BattleState.add_unit, List.find?, beq_eq_decide]
  exact ⟨hD, hj, health_invariant _ hD 1 c6wUnit hj⟩

/-- The attack records of one tick, spelled through the pass pipeline. -/
theorem stepCore_recs (F : FloatOps) (rngF : ℕ → ℚ) (s : BattleState) :
    (s.stepCore F rngF).recs =
      attackPass F rngF (targetingPass
        { s with
          turn := s.turn + 1
          time_elapsed := s.time_elapsed + 1
          units := movementPass F s.units }) := rfl

/-- The strict-minimum accumulator lands on the start or on a list entry. -/
theorem runMin_mem (l : List (ℕ × ℚ)) (c : ℕ × ℚ) : runMin c l ∈ c :: l := by
  rcases runMin_cases l c with h | ⟨pre, q, post, hl, hr, _, _⟩
  · rw [h]
    exact List.mem_cons_self c l
  · rw [hr, hl]
    exact List.mem_cons_of_mem c (by simp)

/-- A populated scan result is one of the candidates. -/
theorem scanMin_none_mem (l : List (ℕ × ℚ)) (p : ℕ × ℚ)
    (h : scanMin l none = some p) : p ∈ l := by
  cases l with
  | nil => exact absurd h (by simp [scanMin])
  | cons q qs =>
      rw [show scanMin (q :: qs) none = scanMin qs (some q) from rfl,
        scanMin_some] at h
      have hh := Option.some.inj h
      rw [← hh]
      exact runMin_mem qs q

/-- A successful `find_best_target` call returns the id of a living enemy
of the attacker present in the roster. -/
theorem find_best_target_some (a : CombatUnit) (s : BattleState) (tid : ℕ)
    (h : find_best_target a s = some tid) :
    ∃ t ∈ s.units, t.id = tid ∧ t.is_alive = true ∧ t.id ≠ a.id ∧
      t.faction_idx ≠ a.faction_idx := by
  rw [find_best_target, fbtLoop_eq_scanMin] at h
  cases hs : scanMin (candList a s.units) none with
  | none => rw [hs] at h; exact absurd h (by simp)
  | some p =>
      rw [hs] at h
      simp only [Option.map_some', Option.some_inj] at h
      have hp := scanMin_none_mem _ _ hs
      obtain ⟨t, ht, hvt, hpe⟩ := (candList_mem_iff a s.units p).mp hp
      simp only [validTarget, Bool.and_eq_true, bne_iff_ne] at hvt
      refine ⟨t, ht, ?_, hvt.1.1, hvt.1.2, hvt.2⟩
      rw [hpe] at h
      exact h

/-- A roster slot seen through a pointwise projection equality. -/
theorem slot_of_proj {γ : Type _} (proj : CombatUnit → γ)
    (us vs : List CombatUnit) (j : ℕ) (v : CombatUnit)
    (h : (vs.get? j).map proj = (us.get? j).map proj)
    (hv : us.get? j = some v) :
    ∃ v', vs.get? j = some v' ∧ proj v' = proj v := by
  rw [hv] at h
  cases hvs : vs.get? j with
  | none => rw [hvs] at h; exact absurd h (by simp)
  | some v' =>
      rw [hvs] at h
      simp only [Option.map_some', Option.some_inj] at h
      exact ⟨v', rfl, h⟩

/-- Transport of target validity along pointwise equality of the
(id, faction_idx, target_id) footprint. -/
theorem TargetsValid_of_proj (us vs : List CombatUnit)
    (h : ∀ j, (vs.get? j).map (fun u => (u.id, u.faction_idx, u.target_id)) =
      (us.get? j).map (fun u => (u.id, u.faction_idx, u.target_id)))
    (hv : TargetsValid us) : TargetsValid vs := by
  intro i u tid hi htid
  obtain ⟨u0, hu0, hp⟩ : ∃ u0, us.get? i = some u0 ∧
      (u.id, u.faction_idx, u.target_id) =
        (u0.id, u0.faction_idx, u0.target_id) := by
    have hh := h i
    rw [hi] at hh
    cases hus : us.get? i with
    | none => rw [hus] at hh; exact absurd hh (by simp)
    | some u0 =>
        rw [hus] at hh
        simp only [Option.map_some', Option.some_inj] at hh
        exact ⟨u0, rfl, hh⟩
  simp only [Prod.mk.injEq] at hp
  obtain ⟨h1, h2, h3⟩ := hp
  rw [h3] at htid
  obtain ⟨hne, j, v0, hj0, hid0, hf0⟩ := hv i u0 tid hu0 htid
  refine ⟨by rw [h1]; exact hne, ?_⟩
  obtain ⟨v, hv', hpv⟩ := slot_of_proj
    (fun u => (u.id, u.faction_idx, u.target_id)) us vs j v0 (h j) hj0
  simp only [Prod.mk.injEq] at hpv
  refine ⟨j, v, hv', by rw [hpv.1]; exact hid0, ?_⟩
  rw [hpv.2.1, h2]
  exact hf0

/-- The targeting pass keeps all targets valid: kept targets were valid,
and fresh ones come from `find_best_target`. -/
theorem targetingPass_TargetsValid (s : BattleState)
    (h : TargetsValid s.units) : TargetsValid (targetingPass s) := by
  intro i u tid hi htid
  obtain ⟨u0, hu0⟩ : ∃ u0, s.units.get? i = some u0 := by
    have hp := targetingPass_proj (fun v => v.id) (fun v t => rfl) s i
    rw [hi] at hp
    cases hs0 : s.units.get? i with
    | none => rw [hs0] at hp; exact absurd hp (by simp)
    | some u0 => exact ⟨u0, rfl⟩
  obtain ⟨y, hy, hte, hcase⟩ := targetingPass_value s i u0 hu0
  rw [hi] at hy
  obtain rfl : u = y := Option.some.inj hy
  have hid : u.id = u0.id :=
    congrArg (fun w => w.id) hte
  have hfac : u.faction_idx = u0.faction_idx :=
    congrArg (fun w => w.faction_idx) hte
  rcases hcase with hkeep | ⟨tid', hfb, hset⟩
  · rw [hkeep] at htid
    obtain ⟨hne, j, v0, hj0, hid0, hf0⟩ := h i u0 tid hu0 htid
    refine ⟨by rw [hid]; exact hne, ?_⟩
    obtain ⟨v, hv', hpv⟩ := slot_of_proj (fun w => (w.id, w.faction_idx))
      s.units (targetingPass s) j v0
      (targetingPass_proj (fun w => (w.id, w.faction_idx))
        (fun w t => rfl) s j) hj0
    simp only [Prod.mk.injEq] at hpv
    refine ⟨j, v, hv', by rw [hpv.1]; exact hid0, ?_⟩
    rw [hpv.2, hfac]
    exact hf0
  · rw [hset] at htid
    obtain rfl : tid' = tid := Option.some.inj htid
    obtain ⟨t, htm, htid2, _, htne, htfac⟩ :=
      find_best_target_some u0 s tid' hfb
    obtain ⟨j, hj⟩ := List.mem_iff_get?.mp htm
    refine ⟨?_, ?_⟩
    · rw [hid, ← htid2]
      exact htne
    · obtain ⟨v, hv', hpv⟩ := slot_of_proj (fun w => (w.id, w.faction_idx))
        s.units (targetingPass s) j t
        (targetingPass_proj (fun w => (w.id, w.faction_idx))
          (fun w t' => rfl) s j) hj
      simp only [Prod.mk.injEq] at hpv
      refine ⟨j, v, hv', by rw [hpv.1]; exact htid2, ?_⟩
      rw [hpv.2, hfac]
      exact htfac

/-- Every engine reachable through the public interface under the C8
add-precondition keeps all targets valid. -/
theorem driven_P8_TargetsValid (e : BattleEngine) (h : Driven P8 e) :
    TargetsValid e.state.units := by
  induction h with
  | new w0 h0 =>
      intro i u tid hi htid
      simp [BattleEngine.new, BattleState.new] at hi
  | @add e0 u0 hD hP ih =>
      intro i u tid hi htid
      have hiu : (e0.state.units ++ [u0]).get? i = some u := hi
      by_cases hlt : i < e0.state.units.length
      · rw [List.get?_append hlt] at hiu
        obtain ⟨hne, j, v, hj, hid, hf⟩ := ih i u tid hiu htid
        have hjlt : j < e0.state.units.length := by
          by_contra hge
          rw [List.get?_eq_none.mpr (not_lt.mp hge)] at hj
          exact Option.noConfusion hj
        refine ⟨hne, j, v, ?_, hid, hf⟩
        show (e0.state.units ++ [u0]).get? j = some v
        rw [List.get?_append hjlt]
        exact hj
      · rw [List.get?_append_right (not_lt.mp hlt)] at hiu
        cases hk : i - e0.state.units.length with
        | zero =>
            rw [hk] at hiu
            cases hiu
            obtain ⟨hfresh, htgt⟩ := hP
            rcases htgt with hnone | ⟨tid0, hsome, v, hvmem, hvid, hvfac⟩
            · rw [hnone] at htid
              exact absurd htid (by simp)
            · rw [hsome] at htid
              obtain rfl : tid0 = tid := Option.some.inj htid
              obtain ⟨j, hj⟩ := List.mem_iff_get?.mp hvmem
              have hjlt : j < e0.state.units.length := by
                by_contra hge
                rw [List.get?_eq_none.mpr (not_lt.mp hge)] at hj
                exact Option.noConfusion hj
              refine ⟨?_, j, v, ?_, hvid, hvfac⟩
              · rw [← hvid]
                exact hfresh v hvmem
              · show (e0.state.units ++ [u0]).get? j = some v
                rw [List.get?_append hjlt]
                exact hj
        | succ k =>
            rw [hk] at hiu
            exact absurd hiu (by simp)
  | @cover e0 uid cv hD ih =>
      refine TargetsValid_of_proj _ _ (fun j => ?_) ih
      have hcv : (e0.set_unit_cover uid cv).state.units =
          updateFirst (fun u => u.id == uid)
            (fun u => { u with cover :=
              match cv with
              | 1 => CoverType.Light
              | 2 => CoverType.Heavy
              | 3 => CoverType.Fortified
              | _ => CoverType.NoCover }) e0.state.units := rfl
      rw [hcv]
      clear hcv
      exact updateFirst_proj (fun u => (u.id, u.faction_idx, u.target_id)) _
        (fun u => { u with cover :=
          match cv with
          | 1 => CoverType.Light
          | 2 => CoverType.Heavy
          | 3 => CoverType.Fortified
          | _ => CoverType.NoCover })
        (fun x => rfl) e0.state.units j
  | log l hD ih => exact ih
  | ctx c hD ih => exact ih
  | @step e0 F rngF hD ih =>
      have hs : (e0.step F rngF).1.state.units =
          (e0.state.stepCore F rngF).state.units := step_units F rngF e0
      rw [hs, stepCore_units]
      apply TargetsValid_of_proj _ _
        (fun j => cooldownPass_proj
          (fun u => (u.id, u.faction_idx, u.target_id))
          (fun u ws => rfl) _ j)
      apply TargetsValid_of_proj _ _
        (fun j => damagePass_proj
          (fun u => (u.id, u.faction_idx, u.target_id))
          (fun t a d => congrArg
            (fun w => (w.id, w.faction_idx, w.target_id))
            (damageUnit_fields t a d)) _ _ j)
      apply TargetsValid_of_proj _ _
        (fun j => applyResets_proj
          (fun u => (u.id, u.faction_idx, u.target_id))
          (fun u ws => rfl) _ _ j)
      apply targetingPass_TargetsValid
      show TargetsValid (movementPass F e0.state.units)
      apply TargetsValid_of_proj _ _
        (fun j => movementPass_proj
          (fun u => (u.id, u.faction_idx, u.target_id))
          (fun u p => rfl) F e0.state.units j)
      exact ih

/-- **C8** (amended; the claim as frozen is refuted by
`friendly_fire_cx`): in a battle driven only through the public interface
in which every added unit has a fresh id and its preset target, if any,
names an already-present unit of another faction, no unit's target id ever
names itself or a same-faction unit, and every damage record any tick
produces names a target distinct from the attacking unit and belonging to
a different faction. -/
theorem no_friendly_fire (e : BattleEngine) (h : Driven P8 e)
    (F : FloatOps) (rngF : ℕ → ℚ) :
    TargetsValid e.state.units ∧
    ∀ rec ∈ (e.state.stepCore F rngF).recs,
      ∃ a, e.state.units.get? rec.attacker_idx = some a ∧
        rec.target_id ≠ a.id ∧
        ∃ v ∈ e.state.units, v.id = rec.target_id ∧
          v.faction_idx ≠ a.faction_idx := by
  have hTV := driven_P8_TargetsValid e h
  refine ⟨hTV, ?_⟩
  intro rec hrec
  rw [stepCore_recs] at hrec
  obtain ⟨a2, ha2, _, htgt, _, _, _⟩ := attackPass_mem F rngF _ rec hrec
  have hcomb : ∀ j, ((targetingPass
      { e.state with
        turn := e.state.turn + 1
        time_elapsed := e.state.time_elapsed + 1
        units := movementPass F e.state.units }).get? j).map
        (fun w => (w.id, w.faction_idx)) =
      (e.state.units.get? j).map (fun w => (w.id, w.faction_idx)) :=
    fun j => (targetingPass_proj (fun w => (w.id, w.faction_idx))
      (fun w t => rfl) _ j).trans
      (movementPass_proj (fun w => (w.id, w.faction_idx))
        (fun w p => rfl) F e.state.units j)
  have hTV2 : TargetsValid (targetingPass
      { e.state with
        turn := e.state.turn + 1
        time_elapsed := e.state.time_elapsed + 1
        units := movementPass F e.state.units }) := by
    apply targetingPass_TargetsValid
    show TargetsValid (movementPass F e.state.units)
    apply TargetsValid_of_proj _ _
      (fun j => movementPass_proj
        (fun u => (u.id, u.faction_idx, u.target_id))
        (fun u p => rfl) F e.state.units j)
    exact hTV
  obtain ⟨hne, j, v2, hj2, hid2, hf2⟩ :=
    hTV2 rec.attacker_idx a2 rec.target_id ha2 htgt
  obtain ⟨a0, ha0, hpa⟩ := slot_of_proj (fun w => (w.id, w.faction_idx))
    _ e.state.units rec.attacker_idx a2
    ((hcomb rec.attacker_idx).symm) ha2
  obtain ⟨v0, hv0, hpv⟩ := slot_of_proj (fun w => (w.id, w.faction_idx))
    _ e.state.units j v2 ((hcomb j).symm) hj2
  simp only [Prod.mk.injEq] at hpa hpv
  refine ⟨a0, ha0, by rw [hpa.1]; exact hne, v0, List.get?_mem hv0, ?_, ?_⟩
  · rw [hpv.1]
    exact hid2
  · rw [hpv.2, hpa.2]
    exact hf2

/-- Witness for the hypotheses of `no_friendly_fire`. -/
theorem no_friendly_fire_witness :
    TargetsValid c4Engine.state.units ∧
    ∀ rec ∈ (c4Engine.state.stepCore F0 rng1).recs,
      ∃ a, c4Engine.state.units.get? rec.attacker_idx = some a ∧
        rec.target_id ≠ a.id ∧
        ∃ v ∈ c4Engine.state.units, v.id = rec.target_id ∧
          v.faction_idx ≠ a.faction_idx := by
  have hD : Driven P8 c4Engine := by
    refine Driven.add (Driven.add (Driven.new 500 500) ?_) ?_
    · norm_num [P8, c4X, mkUnit, CombatUnit.new, BattleEngine.new,
        BattleState.new]
    · norm_num [P8, c4X, c4Y, mkUnit, CombatUnit.new, BattleEngine.new,
        BattleState.new, BattleEngine.add_unit, BattleState.add_unit]
  exact no_friendly_fire c4Engine hD F0 rng1

/-- **C8** counterexample: `add_unit` accepts a unit whose `target_id` is
preset to a same-faction comrade; the engine then records an attack on it
and damages it, all through the public interface with distinct ids. -/
theorem friendly_fire_cx :
    Driven (fun e u => ∀ v ∈ e.state.units, v.id ≠ u.id) c8Engine ∧
    c8Engine.state.units.map (fun u => u.faction_idx) = [0, 0] ∧
    (∃ rec ∈ (c8Engine.state.stepCore F0 rng1).recs,
      rec.attacker_idx = 0 ∧ rec.target_id = 1) ∧
    ((c8Engine.step F0 rng1).1.state.units.get? 1).map (fun u => u.hp) =
      some 90 := by
  refine ⟨?_, ?_, ?_, ?_⟩
  · refine Driven.add (Driven.add (Driven.new 500 500) ?_) ?_
    · norm_num [c8X, mkUnit, CombatUnit.new, BattleEngine.new,
        BattleState.new]
    · norm_num [c8X, c8Y, mkUnit, CombatUnit.new, BattleEngine.new,
        BattleState.new, BattleEngine.add_unit, BattleState.add_unit]
  · norm_num [c8Engine, c8X, c8Y, mkUnit, CombatUnit.new, BattleEngine.new,
      BattleState.new, BattleEngine.add_unit, BattleState.add_unit]
  · have hmem : ({ attacker_idx := 0
                   weapon_idx := 0
                   target_id := 1
                   amount := 10
                   dtype := DamageType.Kinetic } : AttackRec) ∈
        (c8Engine.state.stepCore F0 rng1).recs := by
      norm_num [BattleState.stepCore, movementPass, moveList, hashGet,
        targetingPass, newTargets, needsTarget, find_best_target, fbtLoop,
        validTarget, distSq, attackPass, attackStep, firingWeapons,
        Weapon.get_damage_type, enumL, enumFrom, F0, rng1, c8Engine, c8X,
        c8Y, mkUnit, mkWeapon, CombatUnit.new, BattleEngine.new,
        BattleState.new, BattleEngine.add_unit, BattleState.add_unit,
        List.find?, updateAt, beq_eq_decide]
    exact ⟨_, hmem, rfl, rfl⟩
  · have hs : (c8Engine.step F0 rng1).1.state.units =
        (c8Engine.state.stepCore F0 rng1).state.units :=
      step_units F0 rng1 c8Engine
    rw [hs]
    norm_num [BattleState.stepCore, movementPass, moveList, hashGet,
      targetingPass, newTargets, needsTarget, find_best_target, fbtLoop,
      validTarget, distSq, attackPass, attackStep, firingWeapons,
      Weapon.get_damage_type, applyResets, resetFn, updateAt, damagePass,
      damageStep, updateFirstD, damageUnit, applyLoss, deathClamp,
      CombatUnit.mitigate_damage, cooldownPass, enumL, enumFrom, F0, rng1,
      c8Engine, c8X, c8Y, mkUnit, mkWeapon, CombatUnit.new,
      BattleEngine.new, BattleState.new, BattleEngine.add_unit,
      BattleState.add_unit, List.find?, beq_eq_decide]

end VoidReckoning
